import Mathlib

/-!
Verification of the Gnosis block-header RLP codec (`src/header.rs`).

The development shallowly embeds the `GnosisHeader` data model together with
its RLP length computation (`header_payload_length`), the encoder
(`impl Encodable for GnosisHeader`), the decoder
(`impl Decodable for GnosisHeader`) and the conversions to and from the
canonical (alloy) header.  Bytes are modelled as natural numbers, byte
buffers as `List Nat`, machine integers as `Nat` with explicit bounds, and
fallible operations return `Except`/`Option`.
-/

set_option maxRecDepth 20000

namespace GnosisStuff

/-- Minimal big-endian base-256 representation, computed with explicit fuel
(the fuel argument only bounds the recursion depth; `beBytes` instantiates
it with a sufficient value). `beBytesAux fuel 0 = []`. -/
def beBytesAux : Nat → Nat → List Nat
  | 0, _ => []
  | fuel + 1, n => if n = 0 then [] else beBytesAux fuel (n / 256) ++ [n % 256]

/-- Minimal big-endian base-256 byte representation of a natural number;
`beBytes 0 = []` (matches alloy `to_be_bytes_trimmed`). -/
def beBytes (n : Nat) : List Nat := beBytesAux n n

/-- Interpret a big-endian byte list as a natural number. -/
def natFromBe (l : List Nat) : Nat := l.foldl (fun a b => a * 256 + b) 0

theorem beBytesAux_zero (fuel : Nat) : beBytesAux fuel 0 = [] := by
  cases fuel <;> simp [beBytesAux]

theorem beBytesAux_congr :
    ∀ fuel₁ fuel₂ n, n ≤ fuel₁ → n ≤ fuel₂ → beBytesAux fuel₁ n = beBytesAux fuel₂ n := by
  intro fuel₁
  induction fuel₁ with
  | zero =>
    intro fuel₂ n h₁ _
    have hn : n = 0 := Nat.le_zero.mp h₁
    subst hn
    rw [beBytesAux_zero, beBytesAux_zero]
  | succ f ih =>
    intro fuel₂ n h₁ h₂
    by_cases hn : n = 0
    · subst hn; rw [beBytesAux_zero, beBytesAux_zero]
    · have hpos : 0 < n := Nat.pos_of_ne_zero hn
      obtain ⟨f₂, rfl⟩ : ∃ f₂, fuel₂ = f₂ + 1 := by
        cases fuel₂ with
        | zero => omega
        | succ f₂ => exact ⟨f₂, rfl⟩
      have hdiv : n / 256 < n := Nat.div_lt_self hpos (by omega)
      simp only [beBytesAux, if_neg hn]
      rw [ih f₂ (n / 256) (by omega) (by omega)]

theorem beBytes_zero : beBytes 0 = [] := rfl

theorem beBytes_pos (n : Nat) (h : 0 < n) :
    beBytes n = beBytes (n / 256) ++ [n % 256] := by
  have hn : n ≠ 0 := Nat.pos_iff_ne_zero.mp h
  obtain ⟨m, rfl⟩ : ∃ m, n = m + 1 := ⟨n - 1, by omega⟩
  show beBytesAux (m + 1) (m + 1) = beBytes ((m + 1) / 256) ++ [(m + 1) % 256]
  simp only [beBytesAux, if_neg hn]
  have hdiv : (m + 1) / 256 < m + 1 := Nat.div_lt_self h (by omega)
  rw [beBytesAux_congr m ((m + 1) / 256) ((m + 1) / 256) (by omega) (by omega)]
  rfl

theorem natFromBe_append_single (l : List Nat) (b : Nat) :
    natFromBe (l ++ [b]) = natFromBe l * 256 + b := by
  simp [natFromBe, List.foldl_append]

theorem natFromBe_beBytes (n : Nat) : natFromBe (beBytes n) = n := by
  induction n using Nat.strong_induction_on with
  | _ n ih =>
    by_cases hn : n = 0
    · subst hn; rfl
    · have hpos : 0 < n := Nat.pos_of_ne_zero hn
      rw [beBytes_pos n hpos, natFromBe_append_single,
        ih (n / 256) (Nat.div_lt_self hpos (by omega))]
      omega

theorem beBytes_ne_nil (n : Nat) (h : 0 < n) : beBytes n ≠ [] := by
  rw [beBytes_pos n h]
  simp

theorem beBytes_head_ne_zero :
    ∀ n d t, beBytes n = d :: t → d ≠ 0 := by
  intro n
  induction n using Nat.strong_induction_on with
  | _ n ih =>
    intro d t hdt
    by_cases hn : n = 0
    · subst hn; simp [beBytes_zero] at hdt
    · have hpos : 0 < n := Nat.pos_of_ne_zero hn
      rw [beBytes_pos n hpos] at hdt
      by_cases hq : n / 256 = 0
      · have hlt : n < 256 := by
          rcases Nat.lt_or_ge n 256 with h | h
          · exact h
          · exact absurd hq (by
              have := Nat.div_le_div_right (c := 256) h
              simp at this
              omega)
        rw [hq, beBytes_zero] at hdt
        simp at hdt
        omega
      · have hqpos : 0 < n / 256 := Nat.pos_of_ne_zero hq
        obtain ⟨d', t', hd'⟩ : ∃ d' t', beBytes (n / 256) = d' :: t' := by
          rcases hb : beBytes (n / 256) with _ | ⟨d', t'⟩
          · exact absurd hb (beBytes_ne_nil _ hqpos)
          · exact ⟨d', t', rfl⟩
        rw [hd'] at hdt
        simp at hdt
        exact hdt.1 ▸ ih (n / 256) (Nat.div_lt_self hpos (by omega)) d' t' hd'

theorem beBytes_length_le : ∀ k n, n < 256 ^ k → (beBytes n).length ≤ k := by
  intro k
  induction k with
  | zero =>
    intro n h
    simp at h
    subst h
    simp [beBytes_zero]
  | succ k ih =>
    intro n h
    by_cases hn : n = 0
    · subst hn; simp [beBytes_zero]
    · have hpos : 0 < n := Nat.pos_of_ne_zero hn
      rw [beBytes_pos n hpos]
      have hq : n / 256 < 256 ^ k := by
        rw [Nat.div_lt_iff_lt_mul (by omega)]
        calc n < 256 ^ (k + 1) := h
        _ = 256 ^ k * 256 := by ring
      have := ih (n / 256) hq
      simp [List.length_append]
      omega

theorem beBytes_length_gt : ∀ k n, 256 ^ k ≤ n → k < (beBytes n).length := by
  intro k
  induction k with
  | zero =>
    intro n h
    simp at h
    rw [beBytes_pos n h]
    simp
  | succ k ih =>
    intro n h
    have hpos : 0 < n := lt_of_lt_of_le (Nat.pos_pow_of_pos _ (by omega)) h
    rw [beBytes_pos n hpos]
    have hq : 256 ^ k ≤ n / 256 := by
      rw [Nat.le_div_iff_mul_le (by omega)]
      calc 256 ^ k * 256 = 256 ^ (k + 1) := by ring
      _ ≤ n := h
    have := ih (n / 256) hq
    simp [List.length_append]
    omega

theorem beBytes_mem_lt (n : Nat) : ∀ b ∈ beBytes n, b < 256 := by
  induction n using Nat.strong_induction_on with
  | _ n ih =>
    intro b hb
    by_cases hn : n = 0
    · subst hn; simp [beBytes_zero] at hb
    · have hpos : 0 < n := Nat.pos_of_ne_zero hn
      rw [beBytes_pos n hpos] at hb
      simp at hb
      rcases hb with hb | hb
      · exact ih (n / 256) (Nat.div_lt_self hpos (by omega)) b hb
      · subst hb; exact Nat.mod_lt _ (by omega)

/-- The header type of the node (`GnosisHeader` in `src/header.rs`).
Hashes/addresses/bloom/seal are byte lists, machine integers are `Nat`
(bounds carried by `wellFormed`), optional fields are `Option`. -/
structure GnosisHeader where
  parent_hash : List Nat
  ommers_hash : List Nat
  beneficiary : List Nat
  state_root : List Nat
  transactions_root : List Nat
  receipts_root : List Nat
  logs_bloom : List Nat
  difficulty : Nat
  number : Nat
  gas_limit : Nat
  gas_used : Nat
  timestamp : Nat
  extra_data : List Nat
  mix_hash : Option (List Nat)
  nonce : Option (List Nat)
  aura_step : Option Nat
  aura_seal : Option (List Nat)
  base_fee_per_gas : Option Nat
  withdrawals_root : Option (List Nat)
  blob_gas_used : Option Nat
  excess_blob_gas : Option Nat
  parent_beacon_block_root : Option (List Nat)
  requests_hash : Option (List Nat)
deriving DecidableEq

/-- `GnosisHeader::is_post_merge`: both `mix_hash` and `nonce` populated. -/
def is_post_merge (h : GnosisHeader) : Bool :=
  h.mix_hash.isSome && h.nonce.isSome

/-- `GnosisHeader::is_pre_merge`: both `aura_step` and `aura_seal` populated. -/
def is_pre_merge (h : GnosisHeader) : Bool :=
  h.aura_step.isSome && h.aura_seal.isSome

/-- RLP encoding of a byte string (alloy `impl Encodable for [u8]`):
a single byte below `0x80` encodes as itself, otherwise a length prefix is
emitted before the payload. -/
def encStr (l : List Nat) : List Nat :=
  match l with
  | [b] => if b < 0x80 then [b] else [0x81, b]
  | _ =>
    if l.length < 56 then (0x80 + l.length) :: l
    else (0xB7 + (beBytes l.length).length) :: (beBytes l.length ++ l)

/-- RLP encoding of an unsigned integer (alloy `impl Encodable for Uint`/`u64`):
the minimal big-endian bytes encoded as a byte string. -/
def encInt (n : Nat) : List Nat := encStr (beBytes n)

/-- RLP list header encoding (alloy `Header { list: true, .. }.encode`). -/
def encListHeader (payload : Nat) : List Nat :=
  if payload < 56 then [0xC0 + payload]
  else (0xF7 + (beBytes payload).length) :: beBytes payload

/-- alloy `length_of_length`: byte size of a length prefix for a given
payload length. -/
def lengthOfLength (payload : Nat) : Nat :=
  if payload < 56 then 1 else 1 + (beBytes payload).length

/-- Encoded length of a byte string (alloy `.length()` on fixed bytes /
`Bytes`). -/
def strLength (l : List Nat) : Nat := (encStr l).length

/-- Encoded length of an unsigned integer (alloy `.length()` on `Uint`/`u64`). -/
def intLength (n : Nat) : Nat := (encInt n).length

/-- Length contribution of an optional field: `0` when absent
(Rust `map_or(0, ..)`). -/
def optLen (f : α → Nat) : Option α → Nat
  | none => 0
  | some x => f x

/-- Encoding contribution of an optional trailing field: empty when absent
(the Rust `if let Some(..)` blocks in `encode`). -/
def optEnc (f : α → List Nat) : Option α → List Nat
  | none => []
  | some x => f x

/-- `GnosisHeader::header_payload_length` (src/header.rs lines 399-457):
sum of the encoded lengths of the 13 fixed fields, one consensus variant's
pair (post-merge when `is_post_merge`, otherwise pre-merge with
`aura_step.unwrap_or(ZERO)` and `aura_seal.map_or(0, ..)`), and each present
fork-extension field. -/
def header_payload_length (h : GnosisHeader) : Nat :=
  strLength h.parent_hash + strLength h.ommers_hash + strLength h.beneficiary +
  strLength h.state_root + strLength h.transactions_root + strLength h.receipts_root +
  strLength h.logs_bloom + intLength h.difficulty + intLength h.number +
  intLength h.gas_limit + intLength h.gas_used + intLength h.timestamp +
  strLength h.extra_data +
  (if is_post_merge h then
    optLen strLength h.mix_hash + optLen strLength h.nonce
  else
    intLength (h.aura_step.getD 0) + optLen strLength h.aura_seal) +
  optLen intLength h.base_fee_per_gas + optLen strLength h.withdrawals_root +
  optLen intLength h.blob_gas_used + optLen intLength h.excess_blob_gas +
  optLen strLength h.parent_beacon_block_root + optLen strLength h.requests_hash

/-- `<GnosisHeader as Encodable>::length` (src/header.rs lines 802-807):
payload length plus the size of the outer list prefix. -/
def lengthRlp (h : GnosisHeader) : Nat :=
  header_payload_length h + lengthOfLength (header_payload_length h)

/-- The 13 fixed fields in canonical order, as emitted by `encode`
(src/header.rs lines 751-763). -/
def encodeFixedFields (h : GnosisHeader) : List Nat :=
  encStr h.parent_hash ++ encStr h.ommers_hash ++ encStr h.beneficiary ++
  encStr h.state_root ++ encStr h.transactions_root ++ encStr h.receipts_root ++
  encStr h.logs_bloom ++ encInt h.difficulty ++ encInt h.number ++
  encInt h.gas_limit ++ encInt h.gas_used ++ encInt h.timestamp ++
  encStr h.extra_data

/-- The consensus-variant pair emitted by `encode` (src/header.rs lines
765-771). The Rust code unwraps `aura_step`/`aura_seal` on the pre-merge
path (panic on `None`), modelled as `none`. -/
def encodeConsensusFields (h : GnosisHeader) : Option (List Nat) :=
  if is_post_merge h then
    match h.mix_hash, h.nonce with
    | some mh, some nn => some (encStr mh ++ encStr nn)
    | _, _ => none
  else
    match h.aura_step, h.aura_seal with
    | some st, some sl => some (encInt st ++ encStr sl)
    | _, _ => none

/-- The present fork-extension fields in fixed order, as emitted by `encode`
(src/header.rs lines 773-796). -/
def encodeForkFields (h : GnosisHeader) : List Nat :=
  optEnc encInt h.base_fee_per_gas ++ optEnc encStr h.withdrawals_root ++
  optEnc encInt h.blob_gas_used ++ optEnc encInt h.excess_blob_gas ++
  optEnc encStr h.parent_beacon_block_root ++ optEnc encStr h.requests_hash

/-- `<GnosisHeader as Encodable>::encode` (src/header.rs lines 742-800):
list prefix computed from `header_payload_length`, then the 13 fixed fields,
one consensus variant pair, and the present fork fields. `none` models the
panic when the emitted variant's fields are not populated. -/
def encode (h : GnosisHeader) : Option (List Nat) :=
  match encodeConsensusFields h with
  | none => none
  | some consensus =>
    some (encListHeader (header_payload_length h) ++
      encodeFixedFields h ++ consensus ++ encodeForkFields h)

/-- The alloy-rlp error taxonomy used by the decoder. -/
inductive RlpError where
  | inputTooShort
  | unexpectedString
  | unexpectedList
  | unexpectedLength
  | nonCanonicalSingleByte
  | nonCanonicalSize
  | leadingZero
  | overflow
  | listLengthMismatch (expected got : Nat)
  | custom (msg : String)
deriving DecidableEq

/-- The custom error message produced when the aura seal byte string is not
exactly 65 bytes (src/header.rs lines 864-866). -/
def auraSealMsg : String := "Failed to decode aura_seal as FixedBytes<65>"

/-- alloy `Header::decode`: parse an RLP item prefix, returning the list
flag, the payload length, and the buffer positioned at the payload (a
single byte below `0x80` is its own payload and the cursor does not
advance past it). Fails with `inputTooShort` when fewer bytes than the
declared payload length remain. -/
def decodeRlpHeader (buf : List Nat) : Except RlpError (Bool × Nat × List Nat) :=
  match buf with
  | [] => .error .inputTooShort
  | b :: rest =>
    if b < 0x80 then .ok (false, 1, b :: rest)
    else if b ≤ 0xB7 then
      if b - 0x80 = 1 then
        match rest with
        | [] => .error .inputTooShort
        | c :: rest' =>
          if c < 0x80 then .error .nonCanonicalSingleByte
          else .ok (false, 1, c :: rest')
      else
        if rest.length < b - 0x80 then .error .inputTooShort
        else .ok (false, b - 0x80, rest)
    else if b ≤ 0xBF then
      if rest.length < b - 0xB7 then .error .inputTooShort
      else
        match rest.take (b - 0xB7) with
        | [] => .error .inputTooShort
        | d :: _ =>
          if d = 0 then .error .leadingZero
          else
            if natFromBe (rest.take (b - 0xB7)) < 56 then .error .nonCanonicalSize
            else if (rest.drop (b - 0xB7)).length < natFromBe (rest.take (b - 0xB7)) then
              .error .inputTooShort
            else .ok (false, natFromBe (rest.take (b - 0xB7)), rest.drop (b - 0xB7))
    else if b ≤ 0xF7 then
      if rest.length < b - 0xC0 then .error .inputTooShort
      else .ok (true, b - 0xC0, rest)
    else
      if rest.length < b - 0xF7 then .error .inputTooShort
      else
        match rest.take (b - 0xF7) with
        | [] => .error .inputTooShort
        | d :: _ =>
          if d = 0 then .error .leadingZero
          else
            if natFromBe (rest.take (b - 0xF7)) < 56 then .error .nonCanonicalSize
            else if (rest.drop (b - 0xF7)).length < natFromBe (rest.take (b - 0xF7)) then
              .error .inputTooShort
            else .ok (true, natFromBe (rest.take (b - 0xF7)), rest.drop (b - 0xF7))

/-- alloy `Header::decode_bytes(buf, false)`: decode a byte-string item,
returning the payload bytes and the rest of the buffer. -/
def decodeBytesD (buf : List Nat) : Except RlpError (List Nat × List Nat) :=
  match decodeRlpHeader buf with
  | .error e => .error e
  | .ok (isList, pl, rem) =>
    if isList then .error .unexpectedList
    else .ok (rem.take pl, rem.drop pl)

/-- alloy `impl Decodable for [u8; N]` / `FixedBytes<N>`: a byte string of
exactly `n` bytes. -/
def decodeFixed (n : Nat) (buf : List Nat) : Except RlpError (List Nat × List Nat) :=
  match decodeBytesD buf with
  | .error e => .error e
  | .ok (bytes, rem) =>
    if bytes.length = n then .ok (bytes, rem) else .error .unexpectedLength

/-- alloy `impl Decodable for u64` (`maxBytes = 8`) and `Uint<256>`
(`maxBytes = 32`): a byte string of at most `maxBytes` bytes, without
leading zero, read as a big-endian integer. -/
def decodeUintD (maxBytes : Nat) (buf : List Nat) : Except RlpError (Nat × List Nat) :=
  match decodeBytesD buf with
  | .error e => .error e
  | .ok (bytes, rem) =>
    if maxBytes < bytes.length then .error .overflow
    else
      match bytes with
      | 0 :: _ => .error .leadingZero
      | _ => .ok (natFromBe bytes, rem)

/-- The four consensus-variant slots resolved by the decoder. -/
structure ConsensusFields where
  mix_hash : Option (List Nat)
  nonce : Option (List Nat)
  aura_step : Option Nat
  aura_seal : Option (List Nat)
deriving DecidableEq

/-- Variant resolution in `<GnosisHeader as Decodable>::decode`
(src/header.rs lines 847-868): peek at the next item's length prefix
without advancing; payload length exactly 32 selects the post-merge branch
(32-byte mix hash then 8-byte nonce), anything else the pre-merge branch
(unbounded integer `aura_step`, then a byte string that must be exactly 65
bytes, else the custom error). -/
def decodeConsensus (buf : List Nat) : Except RlpError (ConsensusFields × List Nat) :=
  match decodeRlpHeader buf with
  | .error e => .error e
  | .ok (_, nextPl, _) =>
    if nextPl = 32 then
      match decodeFixed 32 buf with
      | .error e => .error e
      | .ok (mh, buf1) =>
        match decodeFixed 8 buf1 with
        | .error e => .error e
        | .ok (nn, buf2) => .ok (⟨some mh, some nn, none, none⟩, buf2)
    else
      match decodeUintD 32 buf with
      | .error e => .error e
      | .ok (st, buf1) =>
        match decodeBytesD buf1 with
        | .error e => .error e
        | .ok (sealBytes, buf2) =>
          if sealBytes.length = 65 then .ok (⟨none, none, some st, some sealBytes⟩, buf2)
          else .error (.custom auraSealMsg)

/-- The six fork-extension slots filled by the decoder. -/
structure ForkFields where
  base_fee_per_gas : Option Nat
  withdrawals_root : Option (List Nat)
  blob_gas_used : Option Nat
  excess_blob_gas : Option Nat
  parent_beacon_block_root : Option (List Nat)
  requests_hash : Option (List Nat)
deriving DecidableEq

/-- One conditional trailing-field decode: run the decoder only when the
guard (bytes consumed so far `<` declared payload length) holds. -/
def decodeOptIf (cond : Prop) [Decidable cond]
    (dec : List Nat → Except RlpError (α × List Nat)) (buf : List Nat) :
    Except RlpError (Option α × List Nat) :=
  if cond then
    match dec buf with
    | .error e => .error e
    | .ok (v, buf1) => .ok (some v, buf1)
  else .ok (none, buf)

/-- The fork-extension phase of `<GnosisHeader as Decodable>::decode`
(src/header.rs lines 870-896): six conditional decodes in fixed order, each
guarded by `started_len - buf.len() < payload_length`. -/
def decodeForks (startedLen payloadLen : Nat) (buf : List Nat) :
    Except RlpError (ForkFields × List Nat) :=
  match decodeOptIf (startedLen - buf.length < payloadLen) (decodeUintD 8) buf with
  | .error e => .error e
  | .ok (base_fee_per_gas, buf) =>
  match decodeOptIf (startedLen - buf.length < payloadLen) (decodeFixed 32) buf with
  | .error e => .error e
  | .ok (withdrawals_root, buf) =>
  match decodeOptIf (startedLen - buf.length < payloadLen) (decodeUintD 8) buf with
  | .error e => .error e
  | .ok (blob_gas_used, buf) =>
  match decodeOptIf (startedLen - buf.length < payloadLen) (decodeUintD 8) buf with
  | .error e => .error e
  | .ok (excess_blob_gas, buf) =>
  match decodeOptIf (startedLen - buf.length < payloadLen) (decodeFixed 32) buf with
  | .error e => .error e
  | .ok (parent_beacon_block_root, buf) =>
  match decodeOptIf (startedLen - buf.length < payloadLen) (decodeFixed 32) buf with
  | .error e => .error e
  | .ok (requests_hash, buf) =>
    .ok (⟨base_fee_per_gas, withdrawals_root, blob_gas_used, excess_blob_gas,
      parent_beacon_block_root, requests_hash⟩, buf)

/-- The 13 fixed fields read by the decoder, in order. -/
structure FixedFields where
  parent_hash : List Nat
  ommers_hash : List Nat
  beneficiary : List Nat
  state_root : List Nat
  transactions_root : List Nat
  receipts_root : List Nat
  logs_bloom : List Nat
  difficulty : Nat
  number : Nat
  gas_limit : Nat
  gas_used : Nat
  timestamp : Nat
  extra_data : List Nat
deriving DecidableEq

/-- The fixed-field phase of `<GnosisHeader as Decodable>::decode`
(src/header.rs lines 818-831): the 12 scalar/hash fields then `extra_data`,
strictly in order. -/
def decodeFields13 (buf : List Nat) : Except RlpError (FixedFields × List Nat) :=
  match decodeFixed 32 buf with
  | .error e => .error e
  | .ok (parent_hash, buf) =>
  match decodeFixed 32 buf with
  | .error e => .error e
  | .ok (ommers_hash, buf) =>
  match decodeFixed 20 buf with
  | .error e => .error e
  | .ok (beneficiary, buf) =>
  match decodeFixed 32 buf with
  | .error e => .error e
  | .ok (state_root, buf) =>
  match decodeFixed 32 buf with
  | .error e => .error e
  | .ok (transactions_root, buf) =>
  match decodeFixed 32 buf with
  | .error e => .error e
  | .ok (receipts_root, buf) =>
  match decodeFixed 256 buf with
  | .error e => .error e
  | .ok (logs_bloom, buf) =>
  match decodeUintD 32 buf with
  | .error e => .error e
  | .ok (difficulty, buf) =>
  match decodeUintD 8 buf with
  | .error e => .error e
  | .ok (number, buf) =>
  match decodeUintD 8 buf with
  | .error e => .error e
  | .ok (gas_limit, buf) =>
  match decodeUintD 8 buf with
  | .error e => .error e
  | .ok (gas_used, buf) =>
  match decodeUintD 8 buf with
  | .error e => .error e
  | .ok (timestamp, buf) =>
  match decodeBytesD buf with
  | .error e => .error e
  | .ok (extra_data, buf) =>
    .ok (⟨parent_hash, ommers_hash, beneficiary, state_root, transactions_root,
      receipts_root, logs_bloom, difficulty, number, gas_limit, gas_used,
      timestamp, extra_data⟩, buf)

/-- `<GnosisHeader as Decodable>::decode` (src/header.rs lines 810-906):
outer list prefix (`unexpectedString` if not a list), the 13 fixed fields,
variant resolution, the fork-extension loop, and the final check that the
bytes consumed equal the declared payload length exactly. -/
def decode (buf : List Nat) : Except RlpError (GnosisHeader × List Nat) :=
  match decodeRlpHeader buf with
  | .error e => .error e
  | .ok (isList, payloadLen, buf) =>
    if isList then
      match decodeFields13 buf with
      | .error e => .error e
      | .ok (f, buf1) =>
      match decodeConsensus buf1 with
      | .error e => .error e
      | .ok (c, buf2) =>
      match decodeForks buf.length payloadLen buf2 with
      | .error e => .error e
      | .ok (k, buf3) =>
        if buf.length - buf3.length ≠ payloadLen then
          .error (.listLengthMismatch payloadLen (buf.length - buf3.length))
        else
          .ok ({ parent_hash := f.parent_hash
                 ommers_hash := f.ommers_hash
                 beneficiary := f.beneficiary
                 state_root := f.state_root
                 transactions_root := f.transactions_root
                 receipts_root := f.receipts_root
                 logs_bloom := f.logs_bloom
                 difficulty := f.difficulty
                 number := f.number
                 gas_limit := f.gas_limit
                 gas_used := f.gas_used
                 timestamp := f.timestamp
                 extra_data := f.extra_data
                 mix_hash := c.mix_hash
                 nonce := c.nonce
                 aura_step := c.aura_step
                 aura_seal := c.aura_seal
                 base_fee_per_gas := k.base_fee_per_gas
                 withdrawals_root := k.withdrawals_root
                 blob_gas_used := k.blob_gas_used
                 excess_blob_gas := k.excess_blob_gas
                 parent_beacon_block_root := k.parent_beacon_block_root
                 requests_hash := k.requests_hash }, buf3)
    else .error .unexpectedString

/-- All entries of a byte list are bytes. -/
def bytesOk (l : List Nat) : Prop := ∀ b ∈ l, b < 256

instance (l : List Nat) : Decidable (bytesOk l) := List.decidableBAll _ l

/-- Predicate on an optional field; trivially true when absent. -/
def optP (P : α → Prop) : Option α → Prop
  | none => True
  | some x => P x

instance (P : α → Prop) [DecidablePred P] (o : Option α) : Decidable (optP P o) :=
  match o with
  | none => .isTrue trivial
  | some x => inferInstanceAs (Decidable (P x))

/-- A 32-byte hash value. -/
def hash32Ok (l : List Nat) : Prop := l.length = 32 ∧ bytesOk l

instance : DecidablePred hash32Ok := fun _ => inferInstanceAs (Decidable (_ ∧ _))

/-- A value representable as a `u64`. -/
def u64Ok (v : Nat) : Prop := v < 2 ^ 64

instance : DecidablePred u64Ok := fun _ => inferInstanceAs (Decidable (_ < _))

/-- A value representable as a `U256`. -/
def u256Ok (v : Nat) : Prop := v < 2 ^ 256

instance : DecidablePred u256Ok := fun _ => inferInstanceAs (Decidable (_ < _))

/-- An 8-byte nonce value. -/
def nonce8Ok (l : List Nat) : Prop := l.length = 8 ∧ bytesOk l

instance : DecidablePred nonce8Ok := fun _ => inferInstanceAs (Decidable (_ ∧ _))

/-- A 65-byte aura seal value. -/
def seal65Ok (l : List Nat) : Prop := l.length = 65 ∧ bytesOk l

instance : DecidablePred seal65Ok := fun _ => inferInstanceAs (Decidable (_ ∧ _))

/-- Shape constraints on the 13 fixed fields. -/
def wfFixed (h : GnosisHeader) : Prop :=
  hash32Ok h.parent_hash ∧ hash32Ok h.ommers_hash ∧
  (h.beneficiary.length = 20 ∧ bytesOk h.beneficiary) ∧
  hash32Ok h.state_root ∧ hash32Ok h.transactions_root ∧ hash32Ok h.receipts_root ∧
  (h.logs_bloom.length = 256 ∧ bytesOk h.logs_bloom)

instance (h : GnosisHeader) : Decidable (wfFixed h) :=
  inferInstanceAs (Decidable (_ ∧ _ ∧ _ ∧ _ ∧ _ ∧ _ ∧ _))

/-- Machine-integer bounds and `extra_data` constraints. -/
def wfScalars (h : GnosisHeader) : Prop :=
  h.difficulty < 2 ^ 256 ∧ h.number < 2 ^ 64 ∧ h.gas_limit < 2 ^ 64 ∧
  h.gas_used < 2 ^ 64 ∧ h.timestamp < 2 ^ 64 ∧
  bytesOk h.extra_data ∧ h.extra_data.length < 2 ^ 32

instance (h : GnosisHeader) : Decidable (wfScalars h) :=
  inferInstanceAs (Decidable (_ ∧ _ ∧ _ ∧ _ ∧ _ ∧ _ ∧ _))

/-- Exactly one consensus variant fully populated, the other variant's slots
empty. -/
def wfVariant (h : GnosisHeader) : Prop :=
  (h.mix_hash ≠ none ∧ h.nonce ≠ none ∧ h.aura_step = none ∧ h.aura_seal = none ∧
    optP hash32Ok h.mix_hash ∧ optP nonce8Ok h.nonce) ∨
  (h.mix_hash = none ∧ h.nonce = none ∧ h.aura_step ≠ none ∧ h.aura_seal ≠ none ∧
    optP u256Ok h.aura_step ∧ optP seal65Ok h.aura_seal)

instance (h : GnosisHeader) : Decidable (wfVariant h) :=
  inferInstanceAs (Decidable (_ ∨ _))

/-- Value constraints on present fork-extension fields. -/
def wfForkVals (h : GnosisHeader) : Prop :=
  optP u64Ok h.base_fee_per_gas ∧
  optP hash32Ok h.withdrawals_root ∧
  optP u64Ok h.blob_gas_used ∧
  optP u64Ok h.excess_blob_gas ∧
  optP hash32Ok h.parent_beacon_block_root ∧
  optP hash32Ok h.requests_hash

instance (h : GnosisHeader) : Decidable (wfForkVals h) :=
  inferInstanceAs (Decidable (_ ∧ _ ∧ _ ∧ _ ∧ _ ∧ _))

/-- The six fork-extension fields form a monotonic prefix of the fixed
order. -/
def wfForkMono (h : GnosisHeader) : Prop :=
  (h.withdrawals_root ≠ none → h.base_fee_per_gas ≠ none) ∧
  (h.blob_gas_used ≠ none → h.withdrawals_root ≠ none) ∧
  (h.excess_blob_gas ≠ none → h.blob_gas_used ≠ none) ∧
  (h.parent_beacon_block_root ≠ none → h.excess_blob_gas ≠ none) ∧
  (h.requests_hash ≠ none → h.parent_beacon_block_root ≠ none)

instance (h : GnosisHeader) : Decidable (wfForkMono h) :=
  inferInstanceAs (Decidable (_ ∧ _ ∧ _ ∧ _ ∧ _))

/-- Well-formedness of a header as required of encoder inputs by the spec:
field shapes and machine-integer bounds, exactly one consensus variant fully
populated (and the other variant's slots empty), and the six fork-extension
fields forming a monotonic prefix of the fixed order. -/
def wellFormed (h : GnosisHeader) : Prop :=
  wfFixed h ∧ wfScalars h ∧ wfVariant h ∧ wfForkVals h ∧ wfForkMono h

instance (h : GnosisHeader) : Decidable (wellFormed h) :=
  inferInstanceAs (Decidable (_ ∧ _ ∧ _ ∧ _ ∧ _))

/-- The canonical (alloy) header: `mix_hash` and `nonce` mandatory, no aura
fields. -/
structure AlloyHeader where
  parent_hash : List Nat
  ommers_hash : List Nat
  beneficiary : List Nat
  state_root : List Nat
  transactions_root : List Nat
  receipts_root : List Nat
  logs_bloom : List Nat
  difficulty : Nat
  number : Nat
  gas_limit : Nat
  gas_used : Nat
  timestamp : Nat
  extra_data : List Nat
  mix_hash : List Nat
  nonce : List Nat
  base_fee_per_gas : Option Nat
  withdrawals_root : Option (List Nat)
  blob_gas_used : Option Nat
  excess_blob_gas : Option Nat
  parent_beacon_block_root : Option (List Nat)
  requests_hash : Option (List Nat)
deriving DecidableEq

/-- `GnosisHeader::to_alloy_header` (src/header.rs lines 523-552): panics
(`none`) unless both `mix_hash` and `nonce` are populated; otherwise a
field-for-field copy. -/
def to_alloy_header (h : GnosisHeader) : Option AlloyHeader :=
  match h.mix_hash, h.nonce with
  | some mh, some nn =>
    some { parent_hash := h.parent_hash
           ommers_hash := h.ommers_hash
           beneficiary := h.beneficiary
           state_root := h.state_root
           transactions_root := h.transactions_root
           receipts_root := h.receipts_root
           logs_bloom := h.logs_bloom
           difficulty := h.difficulty
           number := h.number
           gas_limit := h.gas_limit
           gas_used := h.gas_used
           timestamp := h.timestamp
           extra_data := h.extra_data
           mix_hash := mh
           nonce := nn
           base_fee_per_gas := h.base_fee_per_gas
           withdrawals_root := h.withdrawals_root
           blob_gas_used := h.blob_gas_used
           excess_blob_gas := h.excess_blob_gas
           parent_beacon_block_root := h.parent_beacon_block_root
           requests_hash := h.requests_hash }
  | _, _ => none

/-- `impl From<Header> for GnosisHeader` (src/header.rs lines 556-584):
total, field-for-field, post-merge variant, aura slots empty. -/
def gnosisHeaderOfAlloy (a : AlloyHeader) : GnosisHeader :=
  { parent_hash := a.parent_hash
    ommers_hash := a.ommers_hash
    beneficiary := a.beneficiary
    state_root := a.state_root
    transactions_root := a.transactions_root
    receipts_root := a.receipts_root
    logs_bloom := a.logs_bloom
    difficulty := a.difficulty
    number := a.number
    gas_limit := a.gas_limit
    gas_used := a.gas_used
    timestamp := a.timestamp
    extra_data := a.extra_data
    mix_hash := some a.mix_hash
    nonce := some a.nonce
    aura_step := none
    aura_seal := none
    base_fee_per_gas := a.base_fee_per_gas
    withdrawals_root := a.withdrawals_root
    blob_gas_used := a.blob_gas_used
    excess_blob_gas := a.excess_blob_gas
    parent_beacon_block_root := a.parent_beacon_block_root
    requests_hash := a.requests_hash }

instance {ε α : Type} [DecidableEq ε] [DecidableEq α] : DecidableEq (Except ε α) :=
  fun a b =>
    match a, b with
    | .ok x, .ok y =>
      if h : x = y then .isTrue (by rw [h]) else .isFalse (by intro hc; cases hc; exact h rfl)
    | .error x, .error y =>
      if h : x = y then .isTrue (by rw [h]) else .isFalse (by intro hc; cases hc; exact h rfl)
    | .ok _, .error _ => .isFalse (by intro hc; cases hc)
    | .error _, .ok _ => .isFalse (by intro hc; cases hc)

theorem hdr_single (b : Nat) (rest : List Nat) (hb : b < 0x80) :
    decodeRlpHeader (b :: rest) = .ok (false, 1, b :: rest) := by
  simp only [decodeRlpHeader]
  rw [if_pos hb]

theorem hdr_short1 (c : Nat) (rest : List Nat) (hc : 0x80 ≤ c) :
    decodeRlpHeader (0x81 :: c :: rest) = .ok (false, 1, c :: rest) := by
  simp only [decodeRlpHeader]
  rw [if_neg (by omega), if_pos (by omega), if_pos (by norm_num)]
  rw [if_neg (by omega)]

theorem hdr_short (len : Nat) (rest : List Nat) (h55 : len ≤ 55) (h1 : len ≠ 1)
    (hrest : len ≤ rest.length) :
    decodeRlpHeader ((0x80 + len) :: rest) = .ok (false, len, rest) := by
  simp only [decodeRlpHeader]
  rw [if_neg (by omega), if_pos (by omega), if_neg (by omega), if_neg (by omega)]
  have hx : 0x80 + len - 0x80 = len := by omega
  rw [hx]

theorem hdr_long (len : Nat) (rest : List Nat) (h56 : 56 ≤ len) (h64 : len < 2 ^ 64)
    (hrest : len ≤ rest.length) :
    decodeRlpHeader ((0xB7 + (beBytes len).length) :: (beBytes len ++ rest)) =
      .ok (false, len, rest) := by
  have hcl1 : 0 < (beBytes len).length := beBytes_length_gt 0 len (by simpa using by omega)
  have hcl8 : (beBytes len).length ≤ 8 := by
    refine beBytes_length_le 8 len ?_
    calc len < 2 ^ 64 := h64
    _ = 256 ^ 8 := by norm_num
  obtain ⟨d, t, hd⟩ : ∃ d t, beBytes len = d :: t := by
    rcases hb : beBytes len with _ | ⟨d, t⟩
    · rw [hb] at hcl1; simp at hcl1
    · exact ⟨d, t, rfl⟩
  have hd0 : d ≠ 0 := beBytes_head_ne_zero len d t hd
  simp only [decodeRlpHeader]
  rw [if_neg (by omega), if_neg (by omega), if_pos (by omega)]
  rw [Nat.add_sub_cancel_left]
  rw [if_neg (by simp only [List.length_append]; omega)]
  rw [List.take_left]
  rw [List.drop_left]
  rw [hd]
  simp only []
  rw [if_neg hd0, ← hd, natFromBe_beBytes, if_neg (by omega), if_neg (by omega)]

theorem hdr_list_short (len : Nat) (rest : List Nat) (h55 : len ≤ 55)
    (hrest : len ≤ rest.length) :
    decodeRlpHeader ((0xC0 + len) :: rest) = .ok (true, len, rest) := by
  simp only [decodeRlpHeader]
  rw [if_neg (by omega), if_neg (by omega), if_neg (by omega), if_pos (by omega),
    if_neg (by omega)]
  have hx : 0xC0 + len - 0xC0 = len := by omega
  rw [hx]

theorem hdr_list_long (len : Nat) (rest : List Nat) (h56 : 56 ≤ len) (h64 : len < 2 ^ 64)
    (hrest : len ≤ rest.length) :
    decodeRlpHeader ((0xF7 + (beBytes len).length) :: (beBytes len ++ rest)) =
      .ok (true, len, rest) := by
  have hcl1 : 0 < (beBytes len).length := beBytes_length_gt 0 len (by simpa using by omega)
  have hcl8 : (beBytes len).length ≤ 8 := by
    refine beBytes_length_le 8 len ?_
    calc len < 2 ^ 64 := h64
    _ = 256 ^ 8 := by norm_num
  obtain ⟨d, t, hd⟩ : ∃ d t, beBytes len = d :: t := by
    rcases hb : beBytes len with _ | ⟨d, t⟩
    · rw [hb] at hcl1; simp at hcl1
    · exact ⟨d, t, rfl⟩
  have hd0 : d ≠ 0 := beBytes_head_ne_zero len d t hd
  simp only [decodeRlpHeader]
  rw [if_neg (by omega), if_neg (by omega), if_neg (by omega), if_neg (by omega)]
  rw [Nat.add_sub_cancel_left]
  rw [if_neg (by simp only [List.length_append]; omega)]
  rw [List.take_left]
  rw [List.drop_left]
  rw [hd]
  simp only []
  rw [if_neg hd0, ← hd, natFromBe_beBytes, if_neg (by omega), if_neg (by omega)]

theorem encStr_nil : encStr [] = [0x80] := rfl

theorem encStr_single_lt (b : Nat) (h : b < 0x80) : encStr [b] = [b] := by
  simp [encStr, h]

theorem encStr_single_ge (b : Nat) (h : 0x80 ≤ b) : encStr [b] = [0x81, b] := by
  simp [encStr, if_neg (by omega : ¬ b < 0x80)]

theorem encStr_eq_short (l : List Nat) (h2 : 2 ≤ l.length) (h56 : l.length < 56) :
    encStr l = (0x80 + l.length) :: l := by
  rcases l with _ | ⟨b, _ | ⟨b2, tl⟩⟩
  · simp at h2
  · simp at h2
  · simp only [encStr]
    rw [if_pos h56]

theorem encStr_eq_long (l : List Nat) (h56 : 56 ≤ l.length) :
    encStr l = (0xB7 + (beBytes l.length).length) :: (beBytes l.length ++ l) := by
  rcases l with _ | ⟨b, _ | ⟨b2, tl⟩⟩
  · simp at h56
  · simp at h56
  · simp only [encStr]
    rw [if_neg (by omega)]

theorem decodeBytesD_encStr (l rest : List Nat) (h64 : l.length < 2 ^ 64) :
    decodeBytesD (encStr l ++ rest) = .ok (l, rest) := by
  rcases l with _ | ⟨b, l'⟩
  · rw [encStr_nil]
    show decodeBytesD (0x80 :: rest) = .ok ([], rest)
    have h := hdr_short 0 rest (by omega) (by omega) (by omega)
    norm_num at h
    unfold decodeBytesD
    rw [h]
    simp
  · rcases l' with _ | ⟨b2, tl⟩
    · by_cases hb : b < 0x80
      · rw [encStr_single_lt b hb]
        show decodeBytesD (b :: rest) = .ok ([b], rest)
        unfold decodeBytesD
        rw [hdr_single b rest hb]
        simp
      · rw [encStr_single_ge b (by omega)]
        show decodeBytesD (0x81 :: b :: rest) = .ok ([b], rest)
        unfold decodeBytesD
        rw [hdr_short1 b rest (by omega)]
        simp
    · by_cases hlen : (b :: b2 :: tl).length < 56
      · rw [encStr_eq_short _ (by simp) hlen]
        show decodeBytesD ((0x80 + (b :: b2 :: tl).length) :: ((b :: b2 :: tl) ++ rest)) =
          .ok (b :: b2 :: tl, rest)
        unfold decodeBytesD
        rw [hdr_short (b :: b2 :: tl).length ((b :: b2 :: tl) ++ rest) (by omega) (by simp)
          (by simp)]
        simp [List.take_left, List.drop_left]
      · rw [encStr_eq_long _ (by omega), List.cons_append, List.append_assoc]
        unfold decodeBytesD
        rw [hdr_long (b :: b2 :: tl).length ((b :: b2 :: tl) ++ rest) (by omega) h64
          (by simp)]
        simp [List.take_left, List.drop_left]

theorem decodeFixed_encStr (n : Nat) (l rest : List Nat) (hn : l.length = n)
    (h64 : l.length < 2 ^ 64) :
    decodeFixed n (encStr l ++ rest) = .ok (l, rest) := by
  unfold decodeFixed
  rw [decodeBytesD_encStr l rest h64]
  simp [hn]

theorem decodeUintD_encInt (maxB n : Nat) (rest : List Nat) (hmax : maxB ≤ 32)
    (hn : n < 256 ^ maxB) :
    decodeUintD maxB (encInt n ++ rest) = .ok (n, rest) := by
  have hlen : (beBytes n).length ≤ maxB := beBytes_length_le maxB n hn
  rcases hb : beBytes n with _ | ⟨d, t⟩
  · have hn0 : n = 0 := by
      have h2 := natFromBe_beBytes n
      rw [hb] at h2
      simpa [natFromBe] using h2.symm
    subst hn0
    unfold decodeUintD encInt
    rw [beBytes_zero, decodeBytesD_encStr [] rest (by simp)]
    simp [natFromBe]
  · have hd0 : d ≠ 0 := beBytes_head_ne_zero n d t hb
    obtain ⟨d', rfl⟩ : ∃ d', d = d' + 1 := ⟨d - 1, by omega⟩
    rw [hb] at hlen
    unfold decodeUintD encInt
    rw [decodeBytesD_encStr (beBytes n) rest (by rw [hb]; omega)]
    rw [hb]
    have hnl : ¬ maxB < ((d' + 1) :: t).length := by omega
    simp only [hnl, if_false]
    rw [← hb, natFromBe_beBytes]

theorem decodeRlpHeader_encList (p : Nat) (rest : List Nat) (h64 : p < 2 ^ 64)
    (hrest : p ≤ rest.length) :
    decodeRlpHeader (encListHeader p ++ rest) = .ok (true, p, rest) := by
  by_cases hp : p < 56
  · have he : encListHeader p = [0xC0 + p] := by simp [encListHeader, hp]
    rw [he]
    show decodeRlpHeader ((0xC0 + p) :: rest) = .ok (true, p, rest)
    exact hdr_list_short p rest (by omega) hrest
  · have he : encListHeader p = (0xF7 + (beBytes p).length) :: beBytes p := by
      simp [encListHeader, hp]
    rw [he]
    show decodeRlpHeader ((0xF7 + (beBytes p).length) :: (beBytes p ++ rest)) =
      .ok (true, p, rest)
    exact hdr_list_long p rest (by omega) h64 hrest

theorem strLength_nil : strLength [] = 1 := rfl

theorem strLength_single (b : Nat) : strLength [b] = if b < 0x80 then 1 else 2 := by
  by_cases hb : b < 0x80
  · rw [if_pos hb]; simp [strLength, encStr_single_lt b hb]
  · rw [if_neg hb]; simp [strLength, encStr_single_ge b (by omega)]

theorem strLength_short (l : List Nat) (h1 : l.length ≠ 1) (h56 : l.length < 56) :
    strLength l = l.length + 1 := by
  rcases l with _ | ⟨b, _ | ⟨b2, tl⟩⟩
  · rfl
  · simp at h1
  · rw [strLength, encStr_eq_short _ (by simp) h56]
    simp

theorem strLength_long (l : List Nat) (h56 : 56 ≤ l.length) :
    strLength l = 1 + (beBytes l.length).length + l.length := by
  rw [strLength, encStr_eq_long _ h56]
  simp [List.length_append]
  omega

theorem strLength_pos (l : List Nat) : 1 ≤ strLength l := by
  rcases l with _ | ⟨b, _ | ⟨b2, tl⟩⟩
  · simp [strLength_nil]
  · rw [strLength_single]; split <;> omega
  · by_cases h56 : (b :: b2 :: tl).length < 56
    · rw [strLength_short _ (by simp) h56]; omega
    · rw [strLength_long _ (by omega)]; omega

theorem strLength_le (l : List Nat) :
    strLength l ≤ l.length + 1 + (beBytes l.length).length := by
  rcases l with _ | ⟨b, _ | ⟨b2, tl⟩⟩
  · simp [strLength_nil]
  · rw [strLength_single]
    split <;> (simp only [List.length_cons, List.length_nil]; omega)
  · by_cases h56 : (b :: b2 :: tl).length < 56
    · rw [strLength_short _ (by simp) h56]; omega
    · rw [strLength_long _ (by omega)]; omega

theorem intLength_le (n : Nat) (h : (beBytes n).length < 56) :
    intLength n ≤ (beBytes n).length + 1 := by
  by_cases h1 : (beBytes n).length = 1
  · obtain ⟨b, hb⟩ : ∃ b, beBytes n = [b] := by
      rcases hx : beBytes n with _ | ⟨b, _ | ⟨b2, t⟩⟩
      · rw [hx] at h1; simp at h1
      · exact ⟨b, rfl⟩
      · rw [hx] at h1; simp at h1
    calc intLength n = strLength [b] := by rw [intLength, encInt, hb]; rfl
    _ ≤ 2 := by rw [strLength_single]; split <;> omega
    _ ≤ (beBytes n).length + 1 := by rw [hb]; simp
  · calc intLength n = strLength (beBytes n) := rfl
    _ ≤ (beBytes n).length + 1 := le_of_eq (strLength_short _ h1 h)

theorem intLength_pos (n : Nat) : 1 ≤ intLength n := strLength_pos _

theorem optEnc_strLength (o : Option (List Nat)) :
    (optEnc encStr o).length = optLen strLength o := by
  cases o <;> rfl

theorem optEnc_intLength (o : Option Nat) :
    (optEnc encInt o).length = optLen intLength o := by
  cases o <;> rfl

theorem encListHeader_length (p : Nat) :
    (encListHeader p).length = lengthOfLength p := by
  unfold encListHeader lengthOfLength
  by_cases hp : p < 56
  · simp [hp]
  · simp [hp]; omega

/-- When the consensus pair can be emitted, the emitted body length equals
`header_payload_length`. -/
theorem encode_parts (h : GnosisHeader) (c : List Nat)
    (hc : encodeConsensusFields h = some c) :
    (encodeFixedFields h).length + c.length + (encodeForkFields h).length
      = header_payload_length h := by
  unfold encodeConsensusFields at hc
  unfold encodeFixedFields encodeForkFields header_payload_length
  by_cases hpm : is_post_merge h
  · rw [if_pos hpm] at hc ⊢
    rcases hmx : h.mix_hash with _ | mh
    · rw [hmx] at hc; simp [is_post_merge, hmx] at hpm
    · rcases hnn : h.nonce with _ | nn
      · rw [hnn] at hc; simp [is_post_merge, hnn] at hpm
      · rw [hmx, hnn] at hc
        simp only [Option.some.injEq] at hc
        subst hc
        simp only [List.length_append, optEnc_strLength, optEnc_intLength, optLen,
          strLength, intLength]
        omega
  · rw [if_neg hpm] at hc ⊢
    rcases hst : h.aura_step with _ | st
    · rw [hst] at hc
      rcases h.aura_seal with _ | sl <;> simp at hc
    · rcases hsl : h.aura_seal with _ | sl
      · rw [hst, hsl] at hc; simp at hc
      · rw [hst, hsl] at hc
        simp only [Option.some.injEq] at hc
        subst hc
        simp only [List.length_append, optEnc_strLength, optEnc_intLength, optLen,
          strLength, intLength, Option.getD]
        omega

/-- The byte length of a successful encoding equals the `length` method. -/
theorem encode_length (h : GnosisHeader) (bs : List Nat) (he : encode h = some bs) :
    bs.length = lengthRlp h := by
  unfold encode at he
  rcases hc : encodeConsensusFields h with _ | c
  · rw [hc] at he; cases he
  · rw [hc] at he
    simp only [Option.some.injEq] at he
    subst he
    have hp := encode_parts h c hc
    simp only [List.length_append, encListHeader_length]
    unfold lengthRlp
    omega

/-- The uniform peek: an RLP string encoding of a short byte list always
decodes its prefix to `(false, l.length, l ++ X)`. -/
theorem peek_encStr (l X : List Nat) (h56 : l.length < 56) :
    decodeRlpHeader (encStr l ++ X) = .ok (false, l.length, l ++ X) := by
  rcases l with _ | ⟨b, l'⟩
  · rw [encStr_nil]
    have h := hdr_short 0 X (by omega) (by omega) (by omega)
    norm_num at h
    show decodeRlpHeader (0x80 :: X) = .ok (false, 0, X)
    rw [h]
  · rcases l' with _ | ⟨b2, tl⟩
    · by_cases hb : b < 0x80
      · rw [encStr_single_lt b hb]
        exact hdr_single b X hb
      · rw [encStr_single_ge b (by omega)]
        exact hdr_short1 b X (by omega)
    · rw [encStr_eq_short _ (by simp) h56, List.cons_append]
      exact hdr_short (b :: b2 :: tl).length ((b :: b2 :: tl) ++ X) (by omega) (by simp)
        (by simp)

/-- Variant resolution on a post-merge body: the 32-byte peek selects the
post-merge branch which consumes the mix hash and the nonce. -/
theorem decodeConsensus_post (mh nn rest : List Nat) (hmh : mh.length = 32)
    (hnn : nn.length = 8) :
    decodeConsensus (encStr mh ++ (encStr nn ++ rest)) =
      .ok (⟨some mh, some nn, none, none⟩, rest) := by
  have hpk := peek_encStr mh (encStr nn ++ rest) (by omega)
  unfold decodeConsensus
  rw [hpk]
  dsimp only
  rw [hmh, if_pos rfl]
  rw [decodeFixed_encStr 32 mh _ hmh (by omega)]
  dsimp only
  rw [decodeFixed_encStr 8 nn rest hnn (by omega)]

/-- Variant resolution on a pre-merge body whose `aura_step` payload is not
32 bytes: the peek selects the pre-merge branch which consumes the step and
the 65-byte seal. -/
theorem decodeConsensus_pre (st : Nat) (sl rest : List Nat) (hst : st < 2 ^ 256)
    (hpl : (beBytes st).length ≠ 32) (hsl : sl.length = 65) :
    decodeConsensus (encInt st ++ (encStr sl ++ rest)) =
      .ok (⟨none, none, some st, some sl⟩, rest) := by
  have hlen : (beBytes st).length ≤ 32 := by
    refine beBytes_length_le 32 st ?_
    calc st < 2 ^ 256 := hst
    _ = 256 ^ 32 := by norm_num
  have hpk := peek_encStr (beBytes st) (encStr sl ++ rest) (by omega)
  unfold decodeConsensus
  rw [show encInt st = encStr (beBytes st) from rfl, hpk]
  dsimp only
  rw [if_neg hpl]
  rw [show encStr (beBytes st) = encInt st from rfl]
  rw [decodeUintD_encInt 32 st _ (by omega) (by
    calc st < 2 ^ 256 := hst
    _ = 256 ^ 32 := by norm_num)]
  dsimp only
  rw [decodeBytesD_encStr sl rest (by omega)]
  dsimp only
  rw [if_pos hsl]

theorem decodeOptIf_present {α : Type} (dec : List Nat → Except RlpError (α × List Nat))
    (buf : List Nat) (v : α) (buf1 : List Nat) (cond : Prop) [Decidable cond]
    (hc : cond) (hd : dec buf = .ok (v, buf1)) :
    decodeOptIf cond dec buf = .ok (some v, buf1) := by
  unfold decodeOptIf
  rw [if_pos hc, hd]

theorem decodeOptIf_absent {α : Type} (dec : List Nat → Except RlpError (α × List Nat))
    (buf : List Nat) (cond : Prop) [Decidable cond] (hc : ¬ cond) :
    decodeOptIf cond dec buf = .ok (none, buf) := by
  unfold decodeOptIf
  rw [if_neg hc]

/-- The fixed-field phase inverts the fixed-field encoding. -/
theorem decodeFields13_enc (h : GnosisHeader) (hwf : wellFormed h) (rest : List Nat) :
    decodeFields13 (encodeFixedFields h ++ rest) =
      .ok (⟨h.parent_hash, h.ommers_hash, h.beneficiary, h.state_root,
        h.transactions_root, h.receipts_root, h.logs_bloom, h.difficulty,
        h.number, h.gas_limit, h.gas_used, h.timestamp, h.extra_data⟩, rest) := by
  obtain ⟨⟨⟨hph32, hphB⟩, ⟨hoh32, hohB⟩, ⟨hbn20, hbnB⟩, ⟨hsr32, hsrB⟩, ⟨htr32, htrB⟩,
    ⟨hrr32, hrrB⟩, ⟨hlb256, hlbB⟩⟩, ⟨hdi, hnu, hgl, hgu, hts, hebB, hel⟩, _, _, _⟩ := hwf
  have h256 : (256 : Nat) ^ 32 = 2 ^ 256 := by norm_num
  have h64 : (256 : Nat) ^ 8 = 2 ^ 64 := by norm_num
  unfold encodeFixedFields decodeFields13
  simp only [List.append_assoc]
  rw [decodeFixed_encStr 32 h.parent_hash _ hph32 (by omega)]
  dsimp only
  rw [decodeFixed_encStr 32 h.ommers_hash _ hoh32 (by omega)]
  dsimp only
  rw [decodeFixed_encStr 20 h.beneficiary _ hbn20 (by omega)]
  dsimp only
  rw [decodeFixed_encStr 32 h.state_root _ hsr32 (by omega)]
  dsimp only
  rw [decodeFixed_encStr 32 h.transactions_root _ htr32 (by omega)]
  dsimp only
  rw [decodeFixed_encStr 32 h.receipts_root _ hrr32 (by omega)]
  dsimp only
  rw [decodeFixed_encStr 256 h.logs_bloom _ hlb256 (by omega)]
  dsimp only
  rw [decodeUintD_encInt 32 h.difficulty _ (by omega) (by omega)]
  dsimp only
  rw [decodeUintD_encInt 8 h.number _ (by omega) (by omega)]
  dsimp only
  rw [decodeUintD_encInt 8 h.gas_limit _ (by omega) (by omega)]
  dsimp only
  rw [decodeUintD_encInt 8 h.gas_used _ (by omega) (by omega)]
  dsimp only
  rw [decodeUintD_encInt 8 h.timestamp _ (by omega) (by omega)]
  dsimp only
  rw [decodeBytesD_encStr h.extra_data rest (by omega)]

/-- Payload length of a well-formed header stays below `2 ^ 64`. -/
theorem payload_lt (h : GnosisHeader) (hwf : wellFormed h) :
    header_payload_length h < 2 ^ 64 := by
  obtain ⟨⟨⟨hph32, _⟩, ⟨hoh32, _⟩, ⟨hbn20, _⟩, ⟨hsr32, _⟩, ⟨htr32, _⟩,
    ⟨hrr32, _⟩, ⟨hlb256, _⟩⟩, ⟨hdi, hnu, hgl, hgu, hts, _, hel⟩, hv, hk, _⟩ := hwf
  have hb32 : ∀ n : Nat, n < 2 ^ 256 → (beBytes n).length ≤ 32 := fun n hn =>
    beBytes_length_le 32 n (by
      have : (256 : Nat) ^ 32 = 2 ^ 256 := by norm_num
      omega)
  have hintle : ∀ n : Nat, n < 2 ^ 256 → intLength n ≤ 33 := by
    intro n hn
    have h1 := hb32 n hn
    have := intLength_le n (by omega)
    omega
  have hstr32 : ∀ l : List Nat, l.length = 32 → strLength l = 33 := fun l hl =>
    (by rw [strLength_short l (by omega) (by omega), hl])
  have hstrle : ∀ l : List Nat, l.length < 2 ^ 32 → strLength l ≤ l.length + 6 := by
    intro l hl
    have h1 : (beBytes l.length).length ≤ 4 :=
      beBytes_length_le 4 l.length (by norm_num; omega)
    have := strLength_le l
    omega
  unfold header_payload_length
  have e1 : strLength h.parent_hash = 33 := hstr32 _ hph32
  have e2 : strLength h.ommers_hash = 33 := hstr32 _ hoh32
  have e3 : strLength h.beneficiary = 21 := by
    rw [strLength_short _ (by omega) (by omega), hbn20]
  have e4 : strLength h.state_root = 33 := hstr32 _ hsr32
  have e5 : strLength h.transactions_root = 33 := hstr32 _ htr32
  have e6 : strLength h.receipts_root = 33 := hstr32 _ hrr32
  have e7 : strLength h.logs_bloom ≤ 512 := by
    have := strLength_le h.logs_bloom
    have hbb : (beBytes h.logs_bloom.length).length ≤ 2 :=
      beBytes_length_le 2 h.logs_bloom.length (by rw [hlb256]; norm_num)
    omega
  have e8 : intLength h.difficulty ≤ 33 := hintle _ hdi
  have e9 : intLength h.number ≤ 33 := hintle _ (by omega)
  have e10 : intLength h.gas_limit ≤ 33 := hintle _ (by omega)
  have e11 : intLength h.gas_used ≤ 33 := hintle _ (by omega)
  have e12 : intLength h.timestamp ≤ 33 := hintle _ (by omega)
  have e13 : strLength h.extra_data ≤ h.extra_data.length + 6 := hstrle _ hel
  have ec : (if is_post_merge h then
      optLen strLength h.mix_hash + optLen strLength h.nonce
    else
      intLength (h.aura_step.getD 0) + optLen strLength h.aura_seal) ≤ 110 := by
    rcases hv with ⟨hm, hn, _, _, hmh, hnh⟩ | ⟨hm, hn, hs, hl, hsv, hslv⟩
    · rcases hmx : h.mix_hash with _ | mh
      · exact absurd hmx hm
      rcases hnn : h.nonce with _ | nn
      · exact absurd hnn hn
      have hpm : is_post_merge h = true := by simp [is_post_merge, hmx, hnn]
      rw [if_pos hpm]
      rw [hmx] at hmh
      rw [hnn] at hnh
      have l1 : strLength mh = 33 := hstr32 _ hmh.1
      have l2 : strLength nn = 9 := by
        have hn8 : nn.length = 8 := hnh.1
        rw [strLength_short _ (by omega) (by omega), hn8]
      simp only [optLen]
      omega
    · have hpm : is_post_merge h = false := by simp [is_post_merge, hm]
      rw [if_neg (by simp [hpm])]
      rcases hsx : h.aura_step with _ | st
      · exact absurd hsx hs
      rcases hsl : h.aura_seal with _ | sl
      · exact absurd hsl hl
      rw [hsx] at hsv
      rw [hsl] at hslv
      have hst256 : st < 2 ^ 256 := hsv
      have hsl65 : sl.length = 65 := hslv.1
      have l1 : intLength st ≤ 33 := hintle st hst256
      have l2 : strLength sl = 67 := by
        rw [strLength_long _ (by omega), hsl65]
        norm_num [show (beBytes 65).length = 1 from rfl]
      simp only [optLen, Option.getD_some]
      omega
  obtain ⟨hk1, hk2, hk3, hk4, hk5, hk6⟩ := hk
  have ef1 : optLen intLength h.base_fee_per_gas ≤ 33 := by
    rcases hbf : h.base_fee_per_gas with _ | v
    · simp [optLen]
    · rw [hbf] at hk1
      have hv64 : v < 2 ^ 64 := hk1
      simp only [optLen]
      exact hintle v (by omega)
  have ef2 : optLen strLength h.withdrawals_root ≤ 33 := by
    rcases hwr : h.withdrawals_root with _ | l
    · simp [optLen]
    · rw [hwr] at hk2
      simp only [optLen]
      exact le_of_eq (hstr32 l hk2.1)
  have ef3 : optLen intLength h.blob_gas_used ≤ 33 := by
    rcases hbg : h.blob_gas_used with _ | v
    · simp [optLen]
    · rw [hbg] at hk3
      have hv64 : v < 2 ^ 64 := hk3
      simp only [optLen]
      exact hintle v (by omega)
  have ef4 : optLen intLength h.excess_blob_gas ≤ 33 := by
    rcases heg : h.excess_blob_gas with _ | v
    · simp [optLen]
    · rw [heg] at hk4
      have hv64 : v < 2 ^ 64 := hk4
      simp only [optLen]
      exact hintle v (by omega)
  have ef5 : optLen strLength h.parent_beacon_block_root ≤ 33 := by
    rcases hpb : h.parent_beacon_block_root with _ | l
    · simp [optLen]
    · rw [hpb] at hk5
      simp only [optLen]
      exact le_of_eq (hstr32 l hk5.1)
  have ef6 : optLen strLength h.requests_hash ≤ 33 := by
    rcases hrq : h.requests_hash with _ | l
    · simp [optLen]
    · rw [hrq] at hk6
      simp only [optLen]
      exact le_of_eq (hstr32 l hk6.1)
  omega

/-- The fork-extension phase inverts the fork-field encoding for a
well-formed (monotonic) set of fork fields. -/
theorem decodeForks_enc (h : GnosisHeader) (hwf : wellFormed h) (p started : Nat)
    (rest : List Nat) (hstart : started = p + rest.length)
    (hple : (encodeForkFields h).length ≤ p) :
    decodeForks started p (encodeForkFields h ++ rest) =
      .ok (⟨h.base_fee_per_gas, h.withdrawals_root, h.blob_gas_used,
        h.excess_blob_gas, h.parent_beacon_block_root, h.requests_hash⟩, rest) := by
  obtain ⟨_, _, _, hk, hmono⟩ := hwf
  obtain ⟨hk1, hk2, hk3, hk4, hk5, hk6⟩ := hk
  obtain ⟨hm1, hm2, hm3, hm4, hm5⟩ := hmono
  have hpow : (256 : Nat) ^ 8 = 2 ^ 64 := by norm_num
  rcases hbf : h.base_fee_per_gas with _ | v1
  · -- base_fee_per_gas absent
    have hn1 : h.withdrawals_root = none := by
      by_contra hx
      exact (hm1 hx) hbf
    have hn2 : h.blob_gas_used = none := by
      by_contra hx
      exact (hm2 hx) hn1
    have hn3 : h.excess_blob_gas = none := by
      by_contra hx
      exact (hm3 hx) hn2
    have hn4 : h.parent_beacon_block_root = none := by
      by_contra hx
      exact (hm4 hx) hn3
    have hn5 : h.requests_hash = none := by
      by_contra hx
      exact (hm5 hx) hn4
    rw [hn1, hn2, hn3, hn4, hn5]
    have henc : encodeForkFields h = [] := by
      simp [encodeForkFields, optEnc, hbf, hn1, hn2, hn3, hn4, hn5]
    rw [henc] at hple ⊢
    rw [List.nil_append]
    have hcA : ¬ (started - rest.length < p) := by omega
    unfold decodeForks
    rw [decodeOptIf_absent (decodeUintD 8) rest _ hcA]
    dsimp only
    rw [decodeOptIf_absent (decodeFixed 32) rest _ hcA]
    dsimp only
    rw [decodeOptIf_absent (decodeUintD 8) rest _ hcA]
    dsimp only
    rw [decodeOptIf_absent (decodeUintD 8) rest _ hcA]
    dsimp only
    rw [decodeOptIf_absent (decodeFixed 32) rest _ hcA]
    dsimp only
    rw [decodeOptIf_absent (decodeFixed 32) rest _ hcA]
  · rw [hbf] at hk1
    have hv1 : v1 < 2 ^ 64 := hk1
    rcases hwr : h.withdrawals_root with _ | l2
    · -- withdrawals_root absent
      have hn2 : h.blob_gas_used = none := by
        by_contra hx
        exact (hm2 hx) hwr
      have hn3 : h.excess_blob_gas = none := by
        by_contra hx
        exact (hm3 hx) hn2
      have hn4 : h.parent_beacon_block_root = none := by
        by_contra hx
        exact (hm4 hx) hn3
      have hn5 : h.requests_hash = none := by
        by_contra hx
        exact (hm5 hx) hn4
      rw [hn2, hn3, hn4, hn5]
      have henc : encodeForkFields h = encInt v1 := by
        simp [encodeForkFields, optEnc, hbf, hwr, hn2, hn3, hn4, hn5]
      rw [henc] at hple ⊢
      have L1 : 1 ≤ (encInt v1).length := intLength_pos v1
      have hcA : ¬ (started - rest.length < p) := by omega
      unfold decodeForks
      have hc1 : started - (encInt v1 ++ rest).length < p := by
        simp only [List.length_append]
        omega
      rw [decodeOptIf_present (decodeUintD 8) _ v1 _ _ hc1
        (decodeUintD_encInt 8 v1 (rest) (by omega) (by omega))]
      dsimp only
      rw [decodeOptIf_absent (decodeFixed 32) rest _ hcA]
      dsimp only
      rw [decodeOptIf_absent (decodeUintD 8) rest _ hcA]
      dsimp only
      rw [decodeOptIf_absent (decodeUintD 8) rest _ hcA]
      dsimp only
      rw [decodeOptIf_absent (decodeFixed 32) rest _ hcA]
      dsimp only
      rw [decodeOptIf_absent (decodeFixed 32) rest _ hcA]
    · rw [hwr] at hk2
      have hw2 : l2.length = 32 := hk2.1
      rcases hbg : h.blob_gas_used with _ | v3
      · -- blob_gas_used absent
        have hn3 : h.excess_blob_gas = none := by
          by_contra hx
          exact (hm3 hx) hbg
        have hn4 : h.parent_beacon_block_root = none := by
          by_contra hx
          exact (hm4 hx) hn3
        have hn5 : h.requests_hash = none := by
          by_contra hx
          exact (hm5 hx) hn4
        rw [hn3, hn4, hn5]
        have henc : encodeForkFields h = encInt v1 ++ encStr l2 := by
          simp [encodeForkFields, optEnc, hbf, hwr, hbg, hn3, hn4, hn5]
        rw [henc] at hple ⊢
        simp only [List.append_assoc] at hple ⊢
        simp only [List.length_append] at hple
        have L1 : 1 ≤ (encInt v1).length := intLength_pos v1
        have L2 : 1 ≤ (encStr l2).length := strLength_pos l2
        have hcA : ¬ (started - rest.length < p) := by omega
        unfold decodeForks
        have hc1 : started - (encInt v1 ++ (encStr l2 ++ rest)).length < p := by
          simp only [List.length_append]
          omega
        rw [decodeOptIf_present (decodeUintD 8) _ v1 _ _ hc1
          (decodeUintD_encInt 8 v1 (encStr l2 ++ rest) (by omega) (by omega))]
        dsimp only
        have hc2 : started - (encStr l2 ++ rest).length < p := by
          simp only [List.length_append]
          omega
        rw [decodeOptIf_present (decodeFixed 32) _ l2 _ _ hc2
          (decodeFixed_encStr 32 l2 (rest) hw2 (by rw [hw2]; norm_num))]
        dsimp only
        rw [decodeOptIf_absent (decodeUintD 8) rest _ hcA]
        dsimp only
        rw [decodeOptIf_absent (decodeUintD 8) rest _ hcA]
        dsimp only
        rw [decodeOptIf_absent (decodeFixed 32) rest _ hcA]
        dsimp only
        rw [decodeOptIf_absent (decodeFixed 32) rest _ hcA]
      · rw [hbg] at hk3
        have hv3 : v3 < 2 ^ 64 := hk3
        rcases heb : h.excess_blob_gas with _ | v4
        · -- excess_blob_gas absent
          have hn4 : h.parent_beacon_block_root = none := by
            by_contra hx
            exact (hm4 hx) heb
          have hn5 : h.requests_hash = none := by
            by_contra hx
            exact (hm5 hx) hn4
          rw [hn4, hn5]
          have henc : encodeForkFields h = encInt v1 ++ (encStr l2 ++ encInt v3) := by
            simp [encodeForkFields, optEnc, hbf, hwr, hbg, heb, hn4, hn5]
          rw [henc] at hple ⊢
          simp only [List.append_assoc] at hple ⊢
          simp only [List.length_append] at hple
          have L1 : 1 ≤ (encInt v1).length := intLength_pos v1
          have L2 : 1 ≤ (encStr l2).length := strLength_pos l2
          have L3 : 1 ≤ (encInt v3).length := intLength_pos v3
          have hcA : ¬ (started - rest.length < p) := by omega
          unfold decodeForks
          have hc1 : started - (encInt v1 ++ (encStr l2 ++ (encInt v3 ++ rest))).length < p := by
            simp only [List.length_append]
            omega
          rw [decodeOptIf_present (decodeUintD 8) _ v1 _ _ hc1
            (decodeUintD_encInt 8 v1 (encStr l2 ++ (encInt v3 ++ rest)) (by omega) (by omega))]
          dsimp only
          have hc2 : started - (encStr l2 ++ (encInt v3 ++ rest)).length < p := by
            simp only [List.length_append]
            omega
          rw [decodeOptIf_present (decodeFixed 32) _ l2 _ _ hc2
            (decodeFixed_encStr 32 l2 (encInt v3 ++ rest) hw2 (by rw [hw2]; norm_num))]
          dsimp only
          have hc3 : started - (encInt v3 ++ rest).length < p := by
            simp only [List.length_append]
            omega
          rw [decodeOptIf_present (decodeUintD 8) _ v3 _ _ hc3
            (decodeUintD_encInt 8 v3 (rest) (by omega) (by omega))]
          dsimp only
          rw [decodeOptIf_absent (decodeUintD 8) rest _ hcA]
          dsimp only
          rw [decodeOptIf_absent (decodeFixed 32) rest _ hcA]
          dsimp only
          rw [decodeOptIf_absent (decodeFixed 32) rest _ hcA]
        · rw [heb] at hk4
          have hv4 : v4 < 2 ^ 64 := hk4
          rcases hpb : h.parent_beacon_block_root with _ | l5
          · -- parent_beacon_block_root absent
            have hn5 : h.requests_hash = none := by
              by_contra hx
              exact (hm5 hx) hpb
            rw [hn5]
            have henc : encodeForkFields h = encInt v1 ++ (encStr l2 ++ (encInt v3 ++ encInt v4)) := by
              simp [encodeForkFields, optEnc, hbf, hwr, hbg, heb, hpb, hn5]
            rw [henc] at hple ⊢
            simp only [List.append_assoc] at hple ⊢
            simp only [List.length_append] at hple
            have L1 : 1 ≤ (encInt v1).length := intLength_pos v1
            have L2 : 1 ≤ (encStr l2).length := strLength_pos l2
            have L3 : 1 ≤ (encInt v3).length := intLength_pos v3
            have L4 : 1 ≤ (encInt v4).length := intLength_pos v4
            have hcA : ¬ (started - rest.length < p) := by omega
            unfold decodeForks
            have hc1 : started - (encInt v1 ++ (encStr l2 ++ (encInt v3 ++ (encInt v4 ++ rest)))).length < p := by
              simp only [List.length_append]
              omega
            rw [decodeOptIf_present (decodeUintD 8) _ v1 _ _ hc1
              (decodeUintD_encInt 8 v1 (encStr l2 ++ (encInt v3 ++ (encInt v4 ++ rest))) (by omega) (by omega))]
            dsimp only
            have hc2 : started - (encStr l2 ++ (encInt v3 ++ (encInt v4 ++ rest))).length < p := by
              simp only [List.length_append]
              omega
            rw [decodeOptIf_present (decodeFixed 32) _ l2 _ _ hc2
              (decodeFixed_encStr 32 l2 (encInt v3 ++ (encInt v4 ++ rest)) hw2 (by rw [hw2]; norm_num))]
            dsimp only
            have hc3 : started - (encInt v3 ++ (encInt v4 ++ rest)).length < p := by
              simp only [List.length_append]
              omega
            rw [decodeOptIf_present (decodeUintD 8) _ v3 _ _ hc3
              (decodeUintD_encInt 8 v3 (encInt v4 ++ rest) (by omega) (by omega))]
            dsimp only
            have hc4 : started - (encInt v4 ++ rest).length < p := by
              simp only [List.length_append]
              omega
            rw [decodeOptIf_present (decodeUintD 8) _ v4 _ _ hc4
              (decodeUintD_encInt 8 v4 (rest) (by omega) (by omega))]
            dsimp only
            rw [decodeOptIf_absent (decodeFixed 32) rest _ hcA]
            dsimp only
            rw [decodeOptIf_absent (decodeFixed 32) rest _ hcA]
          · rw [hpb] at hk5
            have hw5 : l5.length = 32 := hk5.1
            rcases hrq : h.requests_hash with _ | l6
            · -- requests_hash absent
              have henc : encodeForkFields h = encInt v1 ++ (encStr l2 ++ (encInt v3 ++ (encInt v4 ++ encStr l5))) := by
                simp [encodeForkFields, optEnc, hbf, hwr, hbg, heb, hpb, hrq]
              rw [henc] at hple ⊢
              simp only [List.append_assoc] at hple ⊢
              simp only [List.length_append] at hple
              have L1 : 1 ≤ (encInt v1).length := intLength_pos v1
              have L2 : 1 ≤ (encStr l2).length := strLength_pos l2
              have L3 : 1 ≤ (encInt v3).length := intLength_pos v3
              have L4 : 1 ≤ (encInt v4).length := intLength_pos v4
              have L5 : 1 ≤ (encStr l5).length := strLength_pos l5
              have hcA : ¬ (started - rest.length < p) := by omega
              unfold decodeForks
              have hc1 : started - (encInt v1 ++ (encStr l2 ++ (encInt v3 ++ (encInt v4 ++ (encStr l5 ++ rest))))).length < p := by
                simp only [List.length_append]
                omega
              rw [decodeOptIf_present (decodeUintD 8) _ v1 _ _ hc1
                (decodeUintD_encInt 8 v1 (encStr l2 ++ (encInt v3 ++ (encInt v4 ++ (encStr l5 ++ rest)))) (by omega) (by omega))]
              dsimp only
              have hc2 : started - (encStr l2 ++ (encInt v3 ++ (encInt v4 ++ (encStr l5 ++ rest)))).length < p := by
                simp only [List.length_append]
                omega
              rw [decodeOptIf_present (decodeFixed 32) _ l2 _ _ hc2
                (decodeFixed_encStr 32 l2 (encInt v3 ++ (encInt v4 ++ (encStr l5 ++ rest))) hw2 (by rw [hw2]; norm_num))]
              dsimp only
              have hc3 : started - (encInt v3 ++ (encInt v4 ++ (encStr l5 ++ rest))).length < p := by
                simp only [List.length_append]
                omega
              rw [decodeOptIf_present (decodeUintD 8) _ v3 _ _ hc3
                (decodeUintD_encInt 8 v3 (encInt v4 ++ (encStr l5 ++ rest)) (by omega) (by omega))]
              dsimp only
              have hc4 : started - (encInt v4 ++ (encStr l5 ++ rest)).length < p := by
                simp only [List.length_append]
                omega
              rw [decodeOptIf_present (decodeUintD 8) _ v4 _ _ hc4
                (decodeUintD_encInt 8 v4 (encStr l5 ++ rest) (by omega) (by omega))]
              dsimp only
              have hc5 : started - (encStr l5 ++ rest).length < p := by
                simp only [List.length_append]
                omega
              rw [decodeOptIf_present (decodeFixed 32) _ l5 _ _ hc5
                (decodeFixed_encStr 32 l5 (rest) hw5 (by rw [hw5]; norm_num))]
              dsimp only
              rw [decodeOptIf_absent (decodeFixed 32) rest _ hcA]
            · rw [hrq] at hk6
              have hw6 : l6.length = 32 := hk6.1
              have henc : encodeForkFields h = encInt v1 ++ (encStr l2 ++ (encInt v3 ++ (encInt v4 ++ (encStr l5 ++ encStr l6)))) := by
                simp [encodeForkFields, optEnc, hbf, hwr, hbg, heb, hpb, hrq]
              rw [henc] at hple ⊢
              simp only [List.append_assoc] at hple ⊢
              simp only [List.length_append] at hple
              have L1 : 1 ≤ (encInt v1).length := intLength_pos v1
              have L2 : 1 ≤ (encStr l2).length := strLength_pos l2
              have L3 : 1 ≤ (encInt v3).length := intLength_pos v3
              have L4 : 1 ≤ (encInt v4).length := intLength_pos v4
              have L5 : 1 ≤ (encStr l5).length := strLength_pos l5
              have L6 : 1 ≤ (encStr l6).length := strLength_pos l6
              have hcA : ¬ (started - rest.length < p) := by omega
              unfold decodeForks
              have hc1 : started - (encInt v1 ++ (encStr l2 ++ (encInt v3 ++ (encInt v4 ++ (encStr l5 ++ (encStr l6 ++ rest)))))).length < p := by
                simp only [List.length_append]
                omega
              rw [decodeOptIf_present (decodeUintD 8) _ v1 _ _ hc1
                (decodeUintD_encInt 8 v1 (encStr l2 ++ (encInt v3 ++ (encInt v4 ++ (encStr l5 ++ (encStr l6 ++ rest))))) (by omega) (by omega))]
              dsimp only
              have hc2 : started - (encStr l2 ++ (encInt v3 ++ (encInt v4 ++ (encStr l5 ++ (encStr l6 ++ rest))))).length < p := by
                simp only [List.length_append]
                omega
              rw [decodeOptIf_present (decodeFixed 32) _ l2 _ _ hc2
                (decodeFixed_encStr 32 l2 (encInt v3 ++ (encInt v4 ++ (encStr l5 ++ (encStr l6 ++ rest)))) hw2 (by rw [hw2]; norm_num))]
              dsimp only
              have hc3 : started - (encInt v3 ++ (encInt v4 ++ (encStr l5 ++ (encStr l6 ++ rest)))).length < p := by
                simp only [List.length_append]
                omega
              rw [decodeOptIf_present (decodeUintD 8) _ v3 _ _ hc3
                (decodeUintD_encInt 8 v3 (encInt v4 ++ (encStr l5 ++ (encStr l6 ++ rest))) (by omega) (by omega))]
              dsimp only
              have hc4 : started - (encInt v4 ++ (encStr l5 ++ (encStr l6 ++ rest))).length < p := by
                simp only [List.length_append]
                omega
              rw [decodeOptIf_present (decodeUintD 8) _ v4 _ _ hc4
                (decodeUintD_encInt 8 v4 (encStr l5 ++ (encStr l6 ++ rest)) (by omega) (by omega))]
              dsimp only
              have hc5 : started - (encStr l5 ++ (encStr l6 ++ rest)).length < p := by
                simp only [List.length_append]
                omega
              rw [decodeOptIf_present (decodeFixed 32) _ l5 _ _ hc5
                (decodeFixed_encStr 32 l5 (encStr l6 ++ rest) hw5 (by rw [hw5]; norm_num))]
              dsimp only
              have hc6 : started - (encStr l6 ++ rest).length < p := by
                simp only [List.length_append]
                omega
              rw [decodeOptIf_present (decodeFixed 32) _ l6 _ _ hc6
                (decodeFixed_encStr 32 l6 (rest) hw6 (by rw [hw6]; norm_num))]

theorem header_eta (h : GnosisHeader) (mh nn : Option (List Nat))
    (st : Option Nat) (sl : Option (List Nat))
    (hm : h.mix_hash = mh) (hn : h.nonce = nn) (hs : h.aura_step = st)
    (hl : h.aura_seal = sl) :
    ({ parent_hash := h.parent_hash
       ommers_hash := h.ommers_hash
       beneficiary := h.beneficiary
       state_root := h.state_root
       transactions_root := h.transactions_root
       receipts_root := h.receipts_root
       logs_bloom := h.logs_bloom
       difficulty := h.difficulty
       number := h.number
       gas_limit := h.gas_limit
       gas_used := h.gas_used
       timestamp := h.timestamp
       extra_data := h.extra_data
       mix_hash := mh
       nonce := nn
       aura_step := st
       aura_seal := sl
       base_fee_per_gas := h.base_fee_per_gas
       withdrawals_root := h.withdrawals_root
       blob_gas_used := h.blob_gas_used
       excess_blob_gas := h.excess_blob_gas
       parent_beacon_block_root := h.parent_beacon_block_root
       requests_hash := h.requests_hash } : GnosisHeader) = h := by
  subst hm hn hs hl
  rfl

/-- Round-trip: decoding a successful encoding of a well-formed header whose
`aura_step` payload is never exactly 32 bytes recovers the header and leaves
any trailing bytes untouched. -/
theorem decode_encode (h : GnosisHeader) (hwf : wellFormed h)
    (hstep : ∀ st, h.aura_step = some st → (beBytes st).length ≠ 32)
    (bs rest : List Nat) (he : encode h = some bs) :
    decode (bs ++ rest) = .ok (h, rest) := by
  have hplt := payload_lt h hwf
  unfold encode at he
  rcases hc : encodeConsensusFields h with _ | c
  · rw [hc] at he; cases he
  rw [hc] at he
  simp only [Option.some.injEq] at he
  subst he
  have hparts := encode_parts h c hc
  have hvar := hwf.2.2.1
  unfold encodeConsensusFields at hc
  by_cases hpm : is_post_merge h
  · rw [if_pos hpm] at hc
    rcases hmx : h.mix_hash with _ | mh
    · simp [is_post_merge, hmx] at hpm
    rcases hnn : h.nonce with _ | nn
    · simp [is_post_merge, hnn] at hpm
    rw [hmx, hnn] at hc
    simp only [Option.some.injEq] at hc
    subst hc
    simp only [List.length_append] at hparts
    rcases hvar with ⟨_, _, hstn, hsln, hmhP, hnnP⟩ | ⟨hmn, _, _, _, _, _⟩
    swap
    · rw [hmx] at hmn; simp at hmn
    rw [hmx] at hmhP
    rw [hnn] at hnnP
    have h32 : mh.length = 32 := hmhP.1
    have h8 : nn.length = 8 := hnnP.1
    simp only [List.append_assoc]
    unfold decode
    rw [decodeRlpHeader_encList (header_payload_length h) _ hplt
      (by simp only [List.length_append]; omega)]
    dsimp only
    rw [if_pos rfl]
    rw [decodeFields13_enc h hwf _]
    dsimp only
    rw [decodeConsensus_post mh nn _ h32 h8]
    dsimp only
    rw [decodeForks_enc h hwf (header_payload_length h) _ _
      (by simp only [List.length_append]; omega)
      (by omega)]
    dsimp only
    rw [if_neg (by simp only [List.length_append]; omega)]
    rw [header_eta h (some mh) (some nn) none none hmx hnn hstn hsln]
  · rw [if_neg hpm] at hc
    rcases hst : h.aura_step with _ | st
    · rw [hst] at hc
      rcases h.aura_seal with _ | sl <;> simp at hc
    rcases hsl : h.aura_seal with _ | sl
    · rw [hst, hsl] at hc; simp at hc
    rw [hst, hsl] at hc
    simp only [Option.some.injEq] at hc
    subst hc
    simp only [List.length_append] at hparts
    rcases hvar with ⟨_, _, hstn0, _, _, _⟩ | ⟨hmn, hnn, _, _, hstP, hslP⟩
    · rw [hst] at hstn0; simp at hstn0
    rw [hst] at hstP
    rw [hsl] at hslP
    have hst256 : st < 2 ^ 256 := hstP
    have h65 : sl.length = 65 := hslP.1
    have hpl32 : (beBytes st).length ≠ 32 := hstep st hst
    simp only [List.append_assoc]
    unfold decode
    rw [decodeRlpHeader_encList (header_payload_length h) _ hplt
      (by simp only [List.length_append]; omega)]
    dsimp only
    rw [if_pos rfl]
    rw [decodeFields13_enc h hwf _]
    dsimp only
    rw [decodeConsensus_pre st sl _ hst256 hpl32 h65]
    dsimp only
    rw [decodeForks_enc h hwf (header_payload_length h) _ _
      (by simp only [List.length_append]; omega)
      (by omega)]
    dsimp only
    rw [if_neg (by simp only [List.length_append]; omega)]
    rw [header_eta h none none (some st) (some sl) hmn hnn hst hsl]

theorem decodeRlpHeader_ok (buf : List Nat) (l : Bool) (p : Nat) (rem : List Nat)
    (hd : decodeRlpHeader buf = .ok (l, p, rem)) :
    p ≤ rem.length ∧ rem.length ≤ buf.length := by
  rcases buf with _ | ⟨b, rest⟩
  · simp [decodeRlpHeader] at hd
  · simp only [decodeRlpHeader] at hd
    repeat' split at hd
    all_goals cases hd
    all_goals (try simp only [List.length_cons, List.length_drop] at *)
    all_goals omega

theorem decodeBytesD_ok (buf bytes rem : List Nat)
    (hd : decodeBytesD buf = .ok (bytes, rem)) : rem.length ≤ buf.length := by
  unfold decodeBytesD at hd
  rcases hh : decodeRlpHeader buf with e | ⟨isList, pl, rem0⟩
  · rw [hh] at hd; cases hd
  · rw [hh] at hd
    dsimp only at hd
    split at hd
    · cases hd
    · cases hd
      have := decodeRlpHeader_ok buf isList pl rem0 hh
      simp only [List.length_drop]
      omega

theorem decodeFixed_ok (n : Nat) (buf bytes rem : List Nat)
    (hd : decodeFixed n buf = .ok (bytes, rem)) :
    bytes.length = n ∧ rem.length ≤ buf.length := by
  unfold decodeFixed at hd
  rcases hh : decodeBytesD buf with e | ⟨bytes0, rem0⟩
  · rw [hh] at hd; cases hd
  · rw [hh] at hd
    dsimp only at hd
    split at hd
    · cases hd
      exact ⟨by assumption, decodeBytesD_ok buf bytes rem hh⟩
    · cases hd

theorem decodeUintD_ok (maxB : Nat) (buf : List Nat) (v : Nat) (rem : List Nat)
    (hd : decodeUintD maxB buf = .ok (v, rem)) : rem.length ≤ buf.length := by
  unfold decodeUintD at hd
  rcases hh : decodeBytesD buf with e | ⟨bytes0, rem0⟩
  · rw [hh] at hd; cases hd
  · rw [hh] at hd
    dsimp only at hd
    split at hd
    · cases hd
    · split at hd
      · cases hd
      · cases hd
        exact decodeBytesD_ok buf bytes0 rem hh

theorem decodeConsensus_ok (buf : List Nat) (c : ConsensusFields) (rem : List Nat)
    (hd : decodeConsensus buf = .ok (c, rem)) :
    ((∃ mh nn, c = ⟨some mh, some nn, none, none⟩ ∧ mh.length = 32 ∧ nn.length = 8) ∨
      (∃ st sl, c = ⟨none, none, some st, some sl⟩ ∧ sl.length = 65)) ∧
      rem.length ≤ buf.length := by
  unfold decodeConsensus at hd
  rcases hh : decodeRlpHeader buf with e | ⟨isList, pl, rem0⟩
  · rw [hh] at hd; cases hd
  rw [hh] at hd
  dsimp only at hd
  split at hd
  · rcases h1 : decodeFixed 32 buf with e | ⟨mh, buf1⟩
    · rw [h1] at hd; cases hd
    rw [h1] at hd
    dsimp only at hd
    rcases h2 : decodeFixed 8 buf1 with e | ⟨nn, buf2⟩
    · rw [h2] at hd; cases hd
    rw [h2] at hd
    dsimp only at hd
    cases hd
    have s1 := decodeFixed_ok 32 buf mh buf1 h1
    have s2 := decodeFixed_ok 8 buf1 nn rem h2
    exact ⟨Or.inl ⟨mh, nn, rfl, s1.1, s2.1⟩, by omega⟩
  · rcases h1 : decodeUintD 32 buf with e | ⟨st, buf1⟩
    · rw [h1] at hd; cases hd
    rw [h1] at hd
    dsimp only at hd
    rcases h2 : decodeBytesD buf1 with e | ⟨sealBytes, buf2⟩
    · rw [h2] at hd; cases hd
    rw [h2] at hd
    dsimp only at hd
    split at hd
    · cases hd
      have s1 := decodeUintD_ok 32 buf st buf1 h1
      have s2 := decodeBytesD_ok buf1 sealBytes rem h2
      exact ⟨Or.inr ⟨st, sealBytes, rfl, by assumption⟩, by omega⟩
    · cases hd

theorem decodeOptIf_ok {α : Type} (cond : Prop) [Decidable cond]
    (dec : List Nat → Except RlpError (α × List Nat)) (buf : List Nat)
    (o : Option α) (rem : List Nat)
    (hd : decodeOptIf cond dec buf = .ok (o, rem)) :
    (¬ cond ∧ o = none ∧ rem = buf) ∨
      (cond ∧ ∃ v, o = some v ∧ dec buf = .ok (v, rem)) := by
  unfold decodeOptIf at hd
  by_cases hc : cond
  · rw [if_pos hc] at hd
    rcases hdec : dec buf with e | ⟨v, buf1⟩
    · rw [hdec] at hd; cases hd
    · rw [hdec] at hd
      dsimp only at hd
      cases hd
      refine Or.inr ⟨hc, v, rfl, ?_⟩
      rfl
  · rw [if_neg hc] at hd
    cases hd
    exact Or.inl ⟨hc, rfl, rfl⟩

theorem decodeFields13_ok (buf : List Nat) (f : FixedFields) (rem : List Nat)
    (hd : decodeFields13 buf = .ok (f, rem)) : rem.length ≤ buf.length := by
  unfold decodeFields13 at hd
  rcases h1 : decodeFixed 32 buf with e | ⟨x1, b1⟩
  · rw [h1] at hd; cases hd
  rw [h1] at hd
  dsimp only at hd
  rcases h2 : decodeFixed 32 b1 with e | ⟨x2, b2⟩
  · rw [h2] at hd; cases hd
  rw [h2] at hd
  dsimp only at hd
  rcases h3 : decodeFixed 20 b2 with e | ⟨x3, b3⟩
  · rw [h3] at hd; cases hd
  rw [h3] at hd
  dsimp only at hd
  rcases h4 : decodeFixed 32 b3 with e | ⟨x4, b4⟩
  · rw [h4] at hd; cases hd
  rw [h4] at hd
  dsimp only at hd
  rcases h5 : decodeFixed 32 b4 with e | ⟨x5, b5⟩
  · rw [h5] at hd; cases hd
  rw [h5] at hd
  dsimp only at hd
  rcases h6 : decodeFixed 32 b5 with e | ⟨x6, b6⟩
  · rw [h6] at hd; cases hd
  rw [h6] at hd
  dsimp only at hd
  rcases h7 : decodeFixed 256 b6 with e | ⟨x7, b7⟩
  · rw [h7] at hd; cases hd
  rw [h7] at hd
  dsimp only at hd
  rcases h8 : decodeUintD 32 b7 with e | ⟨x8, b8⟩
  · rw [h8] at hd; cases hd
  rw [h8] at hd
  dsimp only at hd
  rcases h9 : decodeUintD 8 b8 with e | ⟨x9, b9⟩
  · rw [h9] at hd; cases hd
  rw [h9] at hd
  dsimp only at hd
  rcases h10 : decodeUintD 8 b9 with e | ⟨x10, b10⟩
  · rw [h10] at hd; cases hd
  rw [h10] at hd
  dsimp only at hd
  rcases h11 : decodeUintD 8 b10 with e | ⟨x11, b11⟩
  · rw [h11] at hd; cases hd
  rw [h11] at hd
  dsimp only at hd
  rcases h12 : decodeUintD 8 b11 with e | ⟨x12, b12⟩
  · rw [h12] at hd; cases hd
  rw [h12] at hd
  dsimp only at hd
  rcases h13 : decodeBytesD b12 with e | ⟨x13, b13⟩
  · rw [h13] at hd; cases hd
  rw [h13] at hd
  dsimp only at hd
  cases hd
  have s1 := (decodeFixed_ok 32 buf x1 b1 h1).2
  have s2 := (decodeFixed_ok 32 b1 x2 b2 h2).2
  have s3 := (decodeFixed_ok 20 b2 x3 b3 h3).2
  have s4 := (decodeFixed_ok 32 b3 x4 b4 h4).2
  have s5 := (decodeFixed_ok 32 b4 x5 b5 h5).2
  have s6 := (decodeFixed_ok 32 b5 x6 b6 h6).2
  have s7 := (decodeFixed_ok 256 b6 x7 b7 h7).2
  have s8 := decodeUintD_ok 32 b7 x8 b8 h8
  have s9 := decodeUintD_ok 8 b8 x9 b9 h9
  have s10 := decodeUintD_ok 8 b9 x10 b10 h10
  have s11 := decodeUintD_ok 8 b10 x11 b11 h11
  have s12 := decodeUintD_ok 8 b11 x12 b12 h12
  have s13 := decodeBytesD_ok b12 x13 rem h13
  omega

theorem decodeForks_ok (started p : Nat) (buf : List Nat) (k : ForkFields)
    (rem : List Nat) (hd : decodeForks started p buf = .ok (k, rem)) :
    (k.withdrawals_root ≠ none → k.base_fee_per_gas ≠ none) ∧
    (k.blob_gas_used ≠ none → k.withdrawals_root ≠ none) ∧
    (k.excess_blob_gas ≠ none → k.blob_gas_used ≠ none) ∧
    (k.parent_beacon_block_root ≠ none → k.excess_blob_gas ≠ none) ∧
    (k.requests_hash ≠ none → k.parent_beacon_block_root ≠ none) ∧
    rem.length ≤ buf.length := by
  unfold decodeForks at hd
  rcases h1 : decodeOptIf (started - buf.length < p) (decodeUintD 8) buf with e | ⟨o1, b1⟩
  · rw [h1] at hd; cases hd
  rw [h1] at hd
  dsimp only at hd
  rcases h2 : decodeOptIf (started - b1.length < p) (decodeFixed 32) b1 with e | ⟨o2, b2⟩
  · rw [h2] at hd; cases hd
  rw [h2] at hd
  dsimp only at hd
  rcases h3 : decodeOptIf (started - b2.length < p) (decodeUintD 8) b2 with e | ⟨o3, b3⟩
  · rw [h3] at hd; cases hd
  rw [h3] at hd
  dsimp only at hd
  rcases h4 : decodeOptIf (started - b3.length < p) (decodeUintD 8) b3 with e | ⟨o4, b4⟩
  · rw [h4] at hd; cases hd
  rw [h4] at hd
  dsimp only at hd
  rcases h5 : decodeOptIf (started - b4.length < p) (decodeFixed 32) b4 with e | ⟨o5, b5⟩
  · rw [h5] at hd; cases hd
  rw [h5] at hd
  dsimp only at hd
  rcases h6 : decodeOptIf (started - b5.length < p) (decodeFixed 32) b5 with e | ⟨o6, b6⟩
  · rw [h6] at hd; cases hd
  rw [h6] at hd
  dsimp only at hd
  cases hd
  have S1 := decodeOptIf_ok _ _ _ _ _ h1
  have S2 := decodeOptIf_ok _ _ _ _ _ h2
  have S3 := decodeOptIf_ok _ _ _ _ _ h3
  have S4 := decodeOptIf_ok _ _ _ _ _ h4
  have S5 := decodeOptIf_ok _ _ _ _ _ h5
  have S6 := decodeOptIf_ok _ _ _ _ _ h6
  have l1 : b1.length ≤ buf.length := by
    rcases S1 with ⟨_, _, hbeq⟩ | ⟨_, v, _, hv⟩
    · rw [hbeq]
    · exact decodeUintD_ok 8 buf v b1 hv
  have l2 : b2.length ≤ b1.length := by
    rcases S2 with ⟨_, _, hbeq⟩ | ⟨_, v, _, hv⟩
    · rw [hbeq]
    · exact (decodeFixed_ok 32 b1 v b2 hv).2
  have l3 : b3.length ≤ b2.length := by
    rcases S3 with ⟨_, _, hbeq⟩ | ⟨_, v, _, hv⟩
    · rw [hbeq]
    · exact decodeUintD_ok 8 b2 v b3 hv
  have l4 : b4.length ≤ b3.length := by
    rcases S4 with ⟨_, _, hbeq⟩ | ⟨_, v, _, hv⟩
    · rw [hbeq]
    · exact decodeUintD_ok 8 b3 v b4 hv
  have l5 : b5.length ≤ b4.length := by
    rcases S5 with ⟨_, _, hbeq⟩ | ⟨_, v, _, hv⟩
    · rw [hbeq]
    · exact (decodeFixed_ok 32 b4 v b5 hv).2
  have l6 : rem.length ≤ b5.length := by
    rcases S6 with ⟨_, _, hbeq⟩ | ⟨_, v, _, hv⟩
    · rw [hbeq]
    · exact (decodeFixed_ok 32 b5 v rem hv).2
  have mono1 : o2 ≠ none → o1 ≠ none := by
    intro hne heq
    rcases S1 with ⟨hc1, _, hbeq⟩ | ⟨_, v, ho, _⟩
    · rcases S2 with ⟨_, ho2, _⟩ | ⟨hcc, _⟩
      · exact hne ho2
      · rw [hbeq] at hcc
        exact hc1 hcc
    · rw [ho] at heq
      cases heq
  have mono2 : o3 ≠ none → o2 ≠ none := by
    intro hne heq
    rcases S2 with ⟨hc2, _, hbeq⟩ | ⟨_, v, ho, _⟩
    · rcases S3 with ⟨_, ho2, _⟩ | ⟨hcc, _⟩
      · exact hne ho2
      · rw [hbeq] at hcc
        exact hc2 hcc
    · rw [ho] at heq
      cases heq
  have mono3 : o4 ≠ none → o3 ≠ none := by
    intro hne heq
    rcases S3 with ⟨hc3, _, hbeq⟩ | ⟨_, v, ho, _⟩
    · rcases S4 with ⟨_, ho2, _⟩ | ⟨hcc, _⟩
      · exact hne ho2
      · rw [hbeq] at hcc
        exact hc3 hcc
    · rw [ho] at heq
      cases heq
  have mono4 : o5 ≠ none → o4 ≠ none := by
    intro hne heq
    rcases S4 with ⟨hc4, _, hbeq⟩ | ⟨_, v, ho, _⟩
    · rcases S5 with ⟨_, ho2, _⟩ | ⟨hcc, _⟩
      · exact hne ho2
      · rw [hbeq] at hcc
        exact hc4 hcc
    · rw [ho] at heq
      cases heq
  have mono5 : o6 ≠ none → o5 ≠ none := by
    intro hne heq
    rcases S5 with ⟨hc5, _, hbeq⟩ | ⟨_, v, ho, _⟩
    · rcases S6 with ⟨_, ho2, _⟩ | ⟨hcc, _⟩
      · exact hne ho2
      · rw [hbeq] at hcc
        exact hc5 hcc
    · rw [ho] at heq
      cases heq
  exact ⟨mono1, mono2, mono3, mono4, mono5, by omega⟩

/-- Inversion of a successful decode: the outer prefix marked a list, the
consumed bytes equal the declared payload length exactly, exactly one
consensus variant is populated, and the fork fields form a monotonic
prefix. -/
theorem decode_ok_inversion (buf : List Nat) (g : GnosisHeader) (rem : List Nat)
    (hd : decode buf = .ok (g, rem)) :
    (∃ p body, decodeRlpHeader buf = .ok (true, p, body) ∧
      body.length = p + rem.length) ∧
    ((g.mix_hash ≠ none ∧ g.nonce ≠ none ∧ g.aura_step = none ∧ g.aura_seal = none) ∨
      (g.mix_hash = none ∧ g.nonce = none ∧ g.aura_step ≠ none ∧ g.aura_seal ≠ none)) ∧
    (g.withdrawals_root ≠ none → g.base_fee_per_gas ≠ none) ∧
    (g.blob_gas_used ≠ none → g.withdrawals_root ≠ none) ∧
    (g.excess_blob_gas ≠ none → g.blob_gas_used ≠ none) ∧
    (g.parent_beacon_block_root ≠ none → g.excess_blob_gas ≠ none) ∧
    (g.requests_hash ≠ none → g.parent_beacon_block_root ≠ none) := by
  unfold decode at hd
  rcases h0 : decodeRlpHeader buf with e | ⟨isList, p, body⟩
  · rw [h0] at hd; cases hd
  rw [h0] at hd
  dsimp only at hd
  cases isList with
  | false => simp at hd
  | true =>
    rw [if_pos rfl] at hd
    rcases h1 : decodeFields13 body with e | ⟨f, b1⟩
    · rw [h1] at hd; cases hd
    rw [h1] at hd
    dsimp only at hd
    rcases h2 : decodeConsensus b1 with e | ⟨c, b2⟩
    · rw [h2] at hd; cases hd
    rw [h2] at hd
    dsimp only at hd
    rcases h3 : decodeForks body.length p b2 with e | ⟨k, b3⟩
    · rw [h3] at hd; cases hd
    rw [h3] at hd
    dsimp only at hd
    split at hd
    · cases hd
    · rename_i hfin
      cases hd
      have sf := decodeFields13_ok body f b1 h1
      have scAll := decodeConsensus_ok b1 c b2 h2
      have skAll := decodeForks_ok body.length p b2 k rem h3
      have sc := scAll.2
      have sk := skAll.2.2.2.2.2
      have hlen : body.length = p + rem.length := by
        clear scAll skAll h0 h1 h2 h3
        omega
      refine ⟨⟨p, body, rfl, hlen⟩, ?_, skAll.1, skAll.2.1, skAll.2.2.1,
        skAll.2.2.2.1, skAll.2.2.2.2.1⟩
      rcases scAll.1 with ⟨mh, nn, hceq, _, _⟩ | ⟨st, sl, hceq, _⟩
      · subst hceq
        exact Or.inl ⟨by simp, by simp, rfl, rfl⟩
      · subst hceq
        exact Or.inr ⟨rfl, rfl, by simp, by simp⟩

/-- Any well-formed header has at least the two leading 33-byte hash fields
in its payload. -/
theorem payload_ge (h : GnosisHeader) (hwf : wellFormed h) :
    66 ≤ header_payload_length h := by
  obtain ⟨⟨⟨hph32, _⟩, ⟨hoh32, _⟩, _⟩, _, _, _, _⟩ := hwf
  have e1 : strLength h.parent_hash = 33 := by
    rw [strLength_short _ (by omega) (by omega), hph32]
  have e2 : strLength h.ommers_hash = 33 := by
    rw [strLength_short _ (by omega) (by omega), hoh32]
  unfold header_payload_length
  omega

/-- Decoding any strict prefix of a long list encoding fails with
`inputTooShort` (the alloy header decoder checks remaining length against
the declared payload length). -/
theorem decodeRlpHeader_truncated (p : Nat) (body : List Nat) (h56 : 56 ≤ p)
    (h64 : p < 2 ^ 64) (hlen : body.length = p) (n : Nat)
    (hn : n < (encListHeader p ++ body).length) :
    decodeRlpHeader ((encListHeader p ++ body).take n) = .error .inputTooShort := by
  have hcl1 : 0 < (beBytes p).length := beBytes_length_gt 0 p (by simpa using by omega)
  have hcl8 : (beBytes p).length ≤ 8 := by
    refine beBytes_length_le 8 p ?_
    calc p < 2 ^ 64 := h64
    _ = 256 ^ 8 := by norm_num
  have he : encListHeader p = (0xF7 + (beBytes p).length) :: beBytes p := by
    simp [encListHeader, show ¬ p < 56 by omega]
  rw [he] at hn ⊢
  rw [List.cons_append] at hn ⊢
  simp only [List.length_cons, List.length_append] at hn
  rcases n with _ | m
  · simp [decodeRlpHeader]
  · rw [List.take_succ_cons]
    have hrest : (beBytes p ++ body).length = (beBytes p).length + p := by
      simp [List.length_append, hlen]
    have htklen : ((beBytes p ++ body).take m).length = m := by
      rw [List.length_take]
      omega
    simp only [decodeRlpHeader]
    rw [if_neg (by omega), if_neg (by omega), if_neg (by omega), if_neg (by omega)]
    rw [Nat.add_sub_cancel_left]
    by_cases hm : m < (beBytes p).length
    · rw [if_pos (by omega)]
    · rw [if_neg (by omega)]
      have htk : ((beBytes p ++ body).take m).take (beBytes p).length = beBytes p := by
        rw [List.take_take, min_eq_left (by omega), List.take_left]
      rw [htk]
      obtain ⟨d, t, hd⟩ : ∃ d t, beBytes p = d :: t := by
        rcases hb : beBytes p with _ | ⟨d, t⟩
        · rw [hb] at hcl1; simp at hcl1
        · exact ⟨d, t, rfl⟩
      have hd0 : d ≠ 0 := beBytes_head_ne_zero p d t hd
      rw [hd]
      simp only []
      rw [if_neg hd0, ← hd, natFromBe_beBytes, if_neg (by omega)]
      rw [if_pos]
      rw [List.length_drop]
      omega

/-- Decoding a truncated encoding of a well-formed header fails with
`inputTooShort`, whatever the truncation point. -/
theorem decode_truncated (h : GnosisHeader) (hwf : wellFormed h) (bs : List Nat)
    (he : encode h = some bs) (n : Nat) (hn : n < bs.length) :
    decode (bs.take n) = .error .inputTooShort := by
  have hplt := payload_lt h hwf
  have hpge := payload_ge h hwf
  unfold encode at he
  rcases hc : encodeConsensusFields h with _ | c
  · rw [hc] at he; cases he
  rw [hc] at he
  simp only [Option.some.injEq] at he
  subst he
  have hparts := encode_parts h c hc
  have hbody : (encodeFixedFields h ++ c ++ encodeForkFields h).length
      = header_payload_length h := by
    simp only [List.length_append]
    omega
  rw [List.append_assoc, List.append_assoc] at hn ⊢
  rw [← List.append_assoc (encodeFixedFields h)] at hn ⊢
  have htr := decodeRlpHeader_truncated (header_payload_length h)
    ((encodeFixedFields h ++ c) ++ encodeForkFields h) (by omega) hplt
    (by simp only [List.length_append]; omega) n (by
      simpa using hn)
  unfold decode
  rw [htr]

/-- When the outer prefix marks a byte string rather than a list, decode
fails with `unexpectedString` (the `NotAList` error). -/
theorem decode_notList (buf : List Nat) (p : Nat) (rem : List Nat)
    (hh : decodeRlpHeader buf = .ok (false, p, rem)) :
    decode buf = .error .unexpectedString := by
  unfold decode
  rw [hh]
  rfl

/-- An `aura_step` of RLP payload exactly 32 bytes steers the decoder into
the post-merge branch, which then fails with `unexpectedLength` on the
65-byte seal where the 8-byte nonce was expected. -/
theorem decodeConsensus_pre32 (st : Nat) (sl rest : List Nat)
    (h248 : 2 ^ 248 ≤ st) (h256 : st < 2 ^ 256) (hsl : sl.length = 65) :
    decodeConsensus (encInt st ++ (encStr sl ++ rest)) = .error .unexpectedLength := by
  have hlen32 : (beBytes st).length = 32 := by
    have hle := beBytes_length_le 32 st (by
      have hx : (256 : Nat) ^ 32 = 2 ^ 256 := by norm_num
      omega)
    have hgt := beBytes_length_gt 31 st (by
      have hx : (256 : Nat) ^ 31 = 2 ^ 248 := by norm_num
      omega)
    omega
  have hpk := peek_encStr (beBytes st) (encStr sl ++ rest) (by omega)
  unfold decodeConsensus
  rw [show encInt st = encStr (beBytes st) from rfl]
  rw [hpk]
  dsimp only
  rw [hlen32, if_pos rfl]
  rw [decodeFixed_encStr 32 (beBytes st) _ hlen32 (by omega)]
  dsimp only
  unfold decodeFixed
  rw [decodeBytesD_encStr sl rest (by omega)]
  dsimp only
  rw [if_neg (by omega)]

/-- Encoding then decoding a well-formed pre-merge header whose `aura_step`
occupies exactly 32 payload bytes fails with `unexpectedLength`: the
decoder misclassifies the header as post-merge. -/
theorem decode_encode_pre32 (h : GnosisHeader) (hwf : wellFormed h)
    (st : Nat) (hst : h.aura_step = some st) (h248 : 2 ^ 248 ≤ st)
    (bs rest : List Nat) (he : encode h = some bs) :
    decode (bs ++ rest) = .error .unexpectedLength := by
  have hplt := payload_lt h hwf
  unfold encode at he
  rcases hc : encodeConsensusFields h with _ | c
  · rw [hc] at he; cases he
  rw [hc] at he
  simp only [Option.some.injEq] at he
  subst he
  have hparts := encode_parts h c hc
  have hvar := hwf.2.2.1
  unfold encodeConsensusFields at hc
  rcases hvar with ⟨_, _, hstn0, _, _, _⟩ | ⟨hmn, hnn, _, _, hstP, hslP⟩
  · rw [hst] at hstn0; simp at hstn0
  have hpm : is_post_merge h = false := by simp [is_post_merge, hmn]
  rw [if_neg (by simp [hpm])] at hc
  rcases hslx : h.aura_seal with _ | sl
  · rw [hst, hslx] at hc; simp at hc
  rw [hst, hslx] at hc
  simp only [Option.some.injEq] at hc
  subst hc
  simp only [List.length_append] at hparts
  rw [hst] at hstP
  rw [hslx] at hslP
  have hst256 : st < 2 ^ 256 := hstP
  have h65 : sl.length = 65 := hslP.1
  simp only [List.append_assoc]
  unfold decode
  rw [decodeRlpHeader_encList (header_payload_length h) _ hplt
    (by simp only [List.length_append]; omega)]
  dsimp only
  rw [if_pos rfl]
  rw [decodeFields13_enc h hwf _]
  dsimp only
  rw [decodeConsensus_pre32 st sl _ h248 hst256 h65]

/-- A well-formed header always encodes (the panic path is unreachable). -/
theorem encode_some_of_wf (h : GnosisHeader) (hwf : wellFormed h) :
    ∃ bs, encode h = some bs := by
  unfold encode
  rcases hc : encodeConsensusFields h with _ | c
  · exfalso
    unfold encodeConsensusFields at hc
    rcases hwf.2.2.1 with ⟨hm, hn, _, _, _, _⟩ | ⟨hm, hn, hs, hl, _, _⟩
    · rcases hmx : h.mix_hash with _ | mh
      · exact hm hmx
      rcases hnn : h.nonce with _ | nn
      · exact hn hnn
      have hpm : is_post_merge h = true := by simp [is_post_merge, hmx, hnn]
      rw [if_pos hpm, hmx, hnn] at hc
      simp at hc
    · rcases hsx : h.aura_step with _ | st
      · exact hs hsx
      rcases hsl : h.aura_seal with _ | sl
      · exact hl hsl
      have hpm : is_post_merge h = false := by simp [is_post_merge, hm]
      rw [if_neg (by simp [hpm]), hsx, hsl] at hc
      simp at hc
  · exact ⟨_, rfl⟩

/-- Sum of the 13 fixed fields' encoded lengths (first block of
`header_payload_length`). -/
def fixedFieldsLength (h : GnosisHeader) : Nat :=
  strLength h.parent_hash + strLength h.ommers_hash + strLength h.beneficiary +
  strLength h.state_root + strLength h.transactions_root + strLength h.receipts_root +
  strLength h.logs_bloom + intLength h.difficulty + intLength h.number +
  intLength h.gas_limit + intLength h.gas_used + intLength h.timestamp +
  strLength h.extra_data

/-- Sum of the present fork-extension fields' encoded lengths (last block of
`header_payload_length`). -/
def forkFieldsLength (h : GnosisHeader) : Nat :=
  optLen intLength h.base_fee_per_gas + optLen strLength h.withdrawals_root +
  optLen intLength h.blob_gas_used + optLen intLength h.excess_blob_gas +
  optLen strLength h.parent_beacon_block_root + optLen strLength h.requests_hash

/-- Growing only `extra_data` changes only the `extra_data` segment of the
encoding: the encoded length moves by the difference of the two
`extra_data` segments' encoded lengths (plus any outer-prefix size change),
and every other field's bytes are untouched. -/
theorem encode_extra_sensitivity (h : GnosisHeader) (e' : List Nat)
    (hwf : wellFormed h)
    (h1a : 2 ≤ h.extra_data.length) (h1b : h.extra_data.length ≤ 55)
    (h2a : 2 ≤ e'.length) (h2b : e'.length ≤ 55)
    (hlol : lengthOfLength (header_payload_length h) =
      lengthOfLength (header_payload_length { h with extra_data := e' })) :
    ∃ bs bs', encode h = some bs ∧ encode { h with extra_data := e' } = some bs' ∧
      bs'.length + h.extra_data.length = bs.length + e'.length ∧
      ∃ A B,
        bs = encListHeader (header_payload_length h) ++ (A ++ (encStr h.extra_data ++ B)) ∧
        bs' = encListHeader (header_payload_length { h with extra_data := e' }) ++
          (A ++ (encStr e' ++ B)) := by
  rcases hc : encodeConsensusFields h with _ | c
  · obtain ⟨bs, he⟩ := encode_some_of_wf h hwf
    unfold encode at he
    rw [hc] at he
    cases he
  have hcsame : encodeConsensusFields { h with extra_data := e' } =
      encodeConsensusFields h := rfl
  have he : encode h = some (encListHeader (header_payload_length h) ++
      encodeFixedFields h ++ c ++ encodeForkFields h) := by
    unfold encode
    rw [hc]
  have he' : encode { h with extra_data := e' } =
      some (encListHeader (header_payload_length { h with extra_data := e' }) ++
        encodeFixedFields { h with extra_data := e' } ++ c ++
        encodeForkFields { h with extra_data := e' }) := by
    unfold encode
    rw [hcsame, hc]
  refine ⟨_, _, he, he', ?_, ?_⟩
  · have hlen1 := encode_length h _ he
    have hlen2 := encode_length { h with extra_data := e' } _ he'
    have hsl : strLength h.extra_data = h.extra_data.length + 1 :=
      strLength_short _ (by omega) (by omega)
    have hsl' : strLength e' = e'.length + 1 :=
      strLength_short _ (by omega) (by omega)
    have hpm : is_post_merge { h with extra_data := e' } = is_post_merge h := rfl
    have hpay : header_payload_length { h with extra_data := e' } + strLength h.extra_data
        = header_payload_length h + strLength e' := by
      unfold header_payload_length
      dsimp only
      rw [hpm]
      omega
    unfold lengthRlp at hlen1 hlen2
    omega
  · refine ⟨encStr h.parent_hash ++ encStr h.ommers_hash ++ encStr h.beneficiary ++
      encStr h.state_root ++ encStr h.transactions_root ++ encStr h.receipts_root ++
      encStr h.logs_bloom ++ encInt h.difficulty ++ encInt h.number ++
      encInt h.gas_limit ++ encInt h.gas_used ++ encInt h.timestamp,
      c ++ encodeForkFields h, ?_, ?_⟩
    · unfold encodeFixedFields
      simp [List.append_assoc]
    · have hfork' : encodeForkFields { h with extra_data := e' } = encodeForkFields h := rfl
      rw [hfork']
      unfold encodeFixedFields
      dsimp only
      simp [List.append_assoc]

/-- A concrete well-formed post-merge header used as a test vector. -/
def hdrPost : GnosisHeader :=
  { parent_hash := List.replicate 32 1
    ommers_hash := List.replicate 32 2
    beneficiary := List.replicate 20 3
    state_root := List.replicate 32 4
    transactions_root := List.replicate 32 5
    receipts_root := List.replicate 32 6
    logs_bloom := List.replicate 256 7
    difficulty := 0
    number := 100
    gas_limit := 30000000
    gas_used := 21000
    timestamp := 1700000000
    extra_data := [10, 20]
    mix_hash := some (List.replicate 32 8)
    nonce := some (List.replicate 8 9)
    aura_step := none
    aura_seal := none
    base_fee_per_gas := some 7
    withdrawals_root := some (List.replicate 32 11)
    blob_gas_used := none
    excess_blob_gas := none
    parent_beacon_block_root := none
    requests_hash := none }

/-- A concrete well-formed pre-merge (aura) header used as a test vector. -/
def hdrPre : GnosisHeader :=
  { hdrPost with
    mix_hash := none
    nonce := none
    aura_step := some 5
    aura_seal := some (List.replicate 65 12)
    base_fee_per_gas := none
    withdrawals_root := none }

/-- A well-formed pre-merge header whose `aura_step` RLP payload is exactly
32 bytes. -/
def hdrPre32 : GnosisHeader :=
  { hdrPre with aura_step := some (2 ^ 248) }

/-- A second pre-merge header with 32-byte `aura_step` payload (different
field values). -/
def hdrPre32b : GnosisHeader :=
  { hdrPre with
    number := 77
    aura_step := some (3 * 2 ^ 250) }

/-- The canonical-header image of `hdrPost`. -/
def alloyPost : AlloyHeader :=
  { parent_hash := List.replicate 32 1
    ommers_hash := List.replicate 32 2
    beneficiary := List.replicate 20 3
    state_root := List.replicate 32 4
    transactions_root := List.replicate 32 5
    receipts_root := List.replicate 32 6
    logs_bloom := List.replicate 256 7
    difficulty := 0
    number := 100
    gas_limit := 30000000
    gas_used := 21000
    timestamp := 1700000000
    extra_data := [10, 20]
    mix_hash := List.replicate 32 8
    nonce := List.replicate 8 9
    base_fee_per_gas := some 7
    withdrawals_root := some (List.replicate 32 11)
    blob_gas_used := none
    excess_blob_gas := none
    parent_beacon_block_root := none
    requests_hash := none }

/-- Recognizer for the `listLengthMismatch` error. -/
def isLenMismatchErr (r : Except RlpError (GnosisHeader × List Nat)) : Bool :=
  match r with
  | .error (.listLengthMismatch _ _) => true
  | _ => false

/-- C1 (counterexample): the round-trip claim fails as stated. The
well-formed pre-merge header `hdrPre32` (aura_step `2 ^ 248`, whose RLP
payload is exactly 32 bytes) encodes successfully, but decoding the result
yields an `unexpectedLength` error, not the original header. -/
theorem claim1_roundtrip_cex :
    wellFormed hdrPre32 ∧
      decode ((encode hdrPre32).getD []) = .error .unexpectedLength ∧
      decode ((encode hdrPre32).getD []) ≠ .ok (hdrPre32, []) := by
  refine ⟨by decide, by rfl, by decide⟩

/-- C1 (amended): for every well-formed header whose `aura_step` (when
present) is below `2 ^ 248` — i.e. whose RLP payload is never exactly 32
bytes — decoding the encoding returns exactly the original header. -/
theorem claim1_roundtrip_amended (h : GnosisHeader) (hwf : wellFormed h)
    (hstep : ∀ st, h.aura_step = some st → st < 2 ^ 248) :
    ∃ bs, encode h = some bs ∧ decode bs = .ok (h, []) := by
  obtain ⟨bs, he⟩ := encode_some_of_wf h hwf
  have hs : ∀ st, h.aura_step = some st → (beBytes st).length ≠ 32 := by
    intro st hst
    have h1 := hstep st hst
    have hle := beBytes_length_le 31 st (by
      have hx : (256 : Nat) ^ 31 = 2 ^ 248 := by norm_num
      omega)
    omega
  have hd := decode_encode h hwf hs bs [] he
  rw [List.append_nil] at hd
  exact ⟨bs, he, hd⟩

/-- C1 (witness): the amended round-trip at the concrete pre-merge header
`hdrPre` (aura_step 5). -/
theorem claim1_roundtrip_amended_witness :
    ∃ bs, encode hdrPre = some bs ∧ decode bs = .ok (hdrPre, []) :=
  claim1_roundtrip_amended hdrPre (by decide)
    (fun st hst => by
      have : st = 5 := by simpa [hdrPre, hdrPost] using hst.symm
      subst this
      decide)

/-- C2: for every well-formed header, encoding succeeds and the byte length
of the encoding equals the `length` method (payload length plus
`length_of_length` of the payload). -/
theorem claim2_length_consistency (h : GnosisHeader) (hwf : wellFormed h) :
    ∃ bs, encode h = some bs ∧ bs.length = lengthRlp h := by
  obtain ⟨bs, he⟩ := encode_some_of_wf h hwf
  exact ⟨bs, he, encode_length h bs he⟩

/-- C2 (witness): length consistency at the concrete post-merge header. -/
theorem claim2_length_consistency_witness :
    ∃ bs, encode hdrPost = some bs ∧ bs.length = lengthRlp hdrPost :=
  claim2_length_consistency hdrPost (by decide)

/-- C3: after the fixed fields, the decoder peeks at the next item's length
prefix without advancing the main cursor; exactly when that payload length
is 32 it runs the post-merge branch (32-byte mix hash then 8-byte nonce,
both consumed from the unadvanced buffer), otherwise the pre-merge branch
(unbounded integer, then a byte string whose length must be 65, with the
explicit custom error otherwise). -/
theorem claim3_variant_resolution (buf : List Nat) (l : Bool) (pl : Nat)
    (rem : List Nat) (hh : decodeRlpHeader buf = .ok (l, pl, rem)) :
    (pl = 32 → decodeConsensus buf =
      (match decodeFixed 32 buf with
        | .error e => .error e
        | .ok (mh, buf1) =>
          match decodeFixed 8 buf1 with
          | .error e => .error e
          | .ok (nn, buf2) => .ok (⟨some mh, some nn, none, none⟩, buf2))) ∧
    (pl ≠ 32 → decodeConsensus buf =
      (match decodeUintD 32 buf with
        | .error e => .error e
        | .ok (st, buf1) =>
          match decodeBytesD buf1 with
          | .error e => .error e
          | .ok (sealBytes, buf2) =>
            if sealBytes.length = 65 then .ok (⟨none, none, some st, some sealBytes⟩, buf2)
            else .error (.custom auraSealMsg))) ∧
    (pl ≠ 32 → ∀ st b1 sb b2, decodeUintD 32 buf = .ok (st, b1) →
      decodeBytesD b1 = .ok (sb, b2) → sb.length ≠ 65 →
      decodeConsensus buf = .error (.custom auraSealMsg)) := by
  refine ⟨?_, ?_, ?_⟩
  · intro hpl
    unfold decodeConsensus
    rw [hh]
    dsimp only
    rw [if_pos hpl]
  · intro hpl
    unfold decodeConsensus
    rw [hh]
    dsimp only
    rw [if_neg hpl]
  · intro hpl st b1 sb b2 h1 h2 h65
    unfold decodeConsensus
    rw [hh]
    dsimp only
    rw [if_neg hpl, h1]
    dsimp only
    rw [h2]
    dsimp only
    rw [if_neg h65]

/-- C3 (witness): the post-merge branch taken at a concrete buffer whose
next item has a 32-byte payload. -/
theorem claim3_variant_resolution_witness :
    decodeConsensus (encStr (List.replicate 32 7) ++ encStr (List.replicate 8 1)) =
      .ok (⟨some (List.replicate 32 7), some (List.replicate 8 1), none, none⟩, []) := by
  have h := claim3_variant_resolution
    (encStr (List.replicate 32 7) ++ encStr (List.replicate 8 1)) false 32
    (List.replicate 32 7 ++ encStr (List.replicate 8 1)) (by rfl)
  rw [h.1 rfl]
  rfl

/-- C4 (counterexample): a well-formed pre-merge header whose `aura_step`
payload is exactly 32 bytes is not decoded as a post-merge header: decode
fails outright with `unexpectedLength` (the decoder commits to the
post-merge branch and then rejects the 65-byte seal as a nonce). -/
theorem claim4_boundary_cex :
    wellFormed hdrPre32b ∧ hdrPre32b.aura_step = some (3 * 2 ^ 250) ∧
      (beBytes (3 * 2 ^ 250)).length = 32 ∧
      decode ((encode hdrPre32b).getD []) = .error .unexpectedLength := by
  refine ⟨by decide, by rfl, by decide, by rfl⟩

/-- C4 (amended): a well-formed pre-merge header whose `aura_step` encodes
to a payload of exactly 32 bytes (equivalently `2 ^ 248 ≤ aura_step`) is
misclassified into the post-merge branch and decode fails with
`unexpectedLength`; with any other `aura_step` payload length the header
round-trips exactly. -/
theorem claim4_boundary_amended (h : GnosisHeader) (st : Nat)
    (hwf : wellFormed h) (hst : h.aura_step = some st) :
    (2 ^ 248 ≤ st → ∃ bs, encode h = some bs ∧
      decode bs = .error .unexpectedLength) ∧
    (st < 2 ^ 248 → ∃ bs, encode h = some bs ∧ decode bs = .ok (h, [])) := by
  constructor
  · intro h248
    obtain ⟨bs, he⟩ := encode_some_of_wf h hwf
    have hd := decode_encode_pre32 h hwf st hst h248 bs [] he
    rw [List.append_nil] at hd
    exact ⟨bs, he, hd⟩
  · intro hlt
    obtain ⟨bs, he⟩ := encode_some_of_wf h hwf
    have hs : ∀ st2, h.aura_step = some st2 → (beBytes st2).length ≠ 32 := by
      intro st2 hst2
      rw [hst] at hst2
      have hq : st2 = st := by simpa using hst2.symm
      subst hq
      have hle := beBytes_length_le 31 st2 (by
        have hx : (256 : Nat) ^ 31 = 2 ^ 248 := by norm_num
        omega)
      omega
    have hd := decode_encode h hwf hs bs [] he
    rw [List.append_nil] at hd
    exact ⟨bs, he, hd⟩

/-- C4 (witness): the misparse half of the boundary claim at the concrete
header `hdrPre32` (aura_step `2 ^ 248`). -/
theorem claim4_boundary_amended_witness :
    ∃ bs, encode hdrPre32 = some bs ∧ decode bs = .error .unexpectedLength :=
  (claim4_boundary_amended hdrPre32 (2 ^ 248) (by decide) (by rfl)).1 (le_refl _)

/-- C5 (counterexample): decoding a truncated buffer (fewer bytes than the
declared payload length) fails with `inputTooShort`, not with the
`listLengthMismatch` error the claim names. -/
theorem claim5_error_cex :
    wellFormed hdrPost ∧
      decode (((encode hdrPost).getD []).take 100) = .error .inputTooShort ∧
      isLenMismatchErr (decode (((encode hdrPost).getD []).take 100)) = false := by
  refine ⟨by decide, by decide, by decide⟩

/-- C5 (amended): decode fails with a typed error and never exposes a
partial header: a non-list prefix yields `unexpectedString`; any successful
decode consumed exactly the declared payload length (the final
length-mismatch check); and decoding any strict truncation of a well-formed
encoding fails with `inputTooShort` (raised by the prefix decoder's
remaining-length check, before the final `listLengthMismatch` check can
run). -/
theorem claim5_error_amended :
    (∀ buf p rem, decodeRlpHeader buf = .ok (false, p, rem) →
      decode buf = .error .unexpectedString) ∧
    (∀ buf g rem, decode buf = .ok (g, rem) →
      ∃ p body, decodeRlpHeader buf = .ok (true, p, body) ∧
        body.length = p + rem.length) ∧
    (∀ h bs n, wellFormed h → encode h = some bs → n < bs.length →
      decode (bs.take n) = .error .inputTooShort) := by
  refine ⟨?_, ?_, ?_⟩
  · intro buf p rem hh
    exact decode_notList buf p rem hh
  · intro buf g rem hd
    exact (decode_ok_inversion buf g rem hd).1
  · intro h bs n hwf he hn
    exact decode_truncated h hwf bs he n hn

/-- C5 (witness): truncating the concrete encoding of `hdrPost` to 50 bytes
makes decode fail with `inputTooShort`. -/
theorem claim5_error_amended_witness :
    decode (((encode hdrPost).getD []).take 50) = .error .inputTooShort := by
  obtain ⟨-, -, h3⟩ := claim5_error_amended
  exact h3 hdrPost ((encode hdrPost).getD []) 50 (by decide) (by rfl) (by decide)

/-- C6: `header_payload_length` is total on every constructible header and
adds the lengths of exactly one consensus variant's pair: the post-merge
pair when both `mix_hash` and `nonce` are populated, otherwise the
pre-merge pair with `aura_step` defaulting to zero and an absent
`aura_seal` contributing zero. -/
theorem claim6_payload_decomposition (h : GnosisHeader) :
    (h.mix_hash.isSome = true ∧ h.nonce.isSome = true →
      header_payload_length h = fixedFieldsLength h +
        (optLen strLength h.mix_hash + optLen strLength h.nonce) +
        forkFieldsLength h) ∧
    (¬ (h.mix_hash.isSome = true ∧ h.nonce.isSome = true) →
      header_payload_length h = fixedFieldsLength h +
        (intLength (h.aura_step.getD 0) + optLen strLength h.aura_seal) +
        forkFieldsLength h) := by
  constructor
  · intro hx
    have hpm : is_post_merge h = true := by
      unfold is_post_merge
      rw [Bool.and_eq_true]
      exact hx
    unfold header_payload_length fixedFieldsLength forkFieldsLength
    rw [if_pos hpm]
    omega
  · intro hx
    have hpm : is_post_merge h = false := by
      cases hib : is_post_merge h with
      | false => rfl
      | true =>
        exfalso
        apply hx
        unfold is_post_merge at hib
        simpa [Bool.and_eq_true] using hib
    unfold header_payload_length fixedFieldsLength forkFieldsLength
    rw [if_neg (by simp [hpm])]
    omega

/-- C6 (witness): the post-merge decomposition at the concrete header. -/
theorem claim6_payload_decomposition_witness :
    header_payload_length hdrPost = fixedFieldsLength hdrPost +
      (optLen strLength hdrPost.mix_hash + optLen strLength hdrPost.nonce) +
      forkFieldsLength hdrPost :=
  (claim6_payload_decomposition hdrPost).1 (by decide)

/-- C7: encoding fails fatally (a panic on unwrapping the absent pre-merge
value, modelled `none`) exactly when neither consensus variant's pair is
fully populated; under the precondition that at least one pair is fully
populated, encode never panics. -/
theorem claim7_encode_panic_iff (h : GnosisHeader) :
    encode h = none ↔
      ((h.mix_hash = none ∨ h.nonce = none) ∧
        (h.aura_step = none ∨ h.aura_seal = none)) := by
  rcases hm : h.mix_hash with _ | mh <;> rcases hn : h.nonce with _ | nn <;>
    rcases hs : h.aura_step with _ | st <;> rcases hl : h.aura_seal with _ | sl <;>
      simp [encode, encodeConsensusFields, is_post_merge, hm, hn, hs, hl]

/-- C8: the projection to the canonical (alloy) header succeeds exactly
when both `mix_hash` and `nonce` are populated, and copies every field; the
reverse conversion is total, always yields a post-merge-shaped header with
empty aura slots, and carries the fork-extension fields through unchanged. -/
theorem claim8_alloy_conversion :
    (∀ h : GnosisHeader,
      (to_alloy_header h).isSome = true ↔ (h.mix_hash ≠ none ∧ h.nonce ≠ none)) ∧
    (∀ (h : GnosisHeader) (a : AlloyHeader), to_alloy_header h = some a →
      a.parent_hash = h.parent_hash ∧ a.ommers_hash = h.ommers_hash ∧
      a.beneficiary = h.beneficiary ∧ a.state_root = h.state_root ∧
      a.transactions_root = h.transactions_root ∧ a.receipts_root = h.receipts_root ∧
      a.logs_bloom = h.logs_bloom ∧ a.difficulty = h.difficulty ∧
      a.number = h.number ∧ a.gas_limit = h.gas_limit ∧ a.gas_used = h.gas_used ∧
      a.timestamp = h.timestamp ∧ a.extra_data = h.extra_data ∧
      some a.mix_hash = h.mix_hash ∧ some a.nonce = h.nonce ∧
      a.base_fee_per_gas = h.base_fee_per_gas ∧
      a.withdrawals_root = h.withdrawals_root ∧
      a.blob_gas_used = h.blob_gas_used ∧
      a.excess_blob_gas = h.excess_blob_gas ∧
      a.parent_beacon_block_root = h.parent_beacon_block_root ∧
      a.requests_hash = h.requests_hash) ∧
    (∀ a : AlloyHeader,
      (gnosisHeaderOfAlloy a).mix_hash = some a.mix_hash ∧
      (gnosisHeaderOfAlloy a).nonce = some a.nonce ∧
      (gnosisHeaderOfAlloy a).aura_step = none ∧
      (gnosisHeaderOfAlloy a).aura_seal = none ∧
      (gnosisHeaderOfAlloy a).parent_hash = a.parent_hash ∧
      (gnosisHeaderOfAlloy a).ommers_hash = a.ommers_hash ∧
      (gnosisHeaderOfAlloy a).beneficiary = a.beneficiary ∧
      (gnosisHeaderOfAlloy a).state_root = a.state_root ∧
      (gnosisHeaderOfAlloy a).transactions_root = a.transactions_root ∧
      (gnosisHeaderOfAlloy a).receipts_root = a.receipts_root ∧
      (gnosisHeaderOfAlloy a).logs_bloom = a.logs_bloom ∧
      (gnosisHeaderOfAlloy a).difficulty = a.difficulty ∧
      (gnosisHeaderOfAlloy a).number = a.number ∧
      (gnosisHeaderOfAlloy a).gas_limit = a.gas_limit ∧
      (gnosisHeaderOfAlloy a).gas_used = a.gas_used ∧
      (gnosisHeaderOfAlloy a).timestamp = a.timestamp ∧
      (gnosisHeaderOfAlloy a).extra_data = a.extra_data ∧
      (gnosisHeaderOfAlloy a).base_fee_per_gas = a.base_fee_per_gas ∧
      (gnosisHeaderOfAlloy a).withdrawals_root = a.withdrawals_root ∧
      (gnosisHeaderOfAlloy a).blob_gas_used = a.blob_gas_used ∧
      (gnosisHeaderOfAlloy a).excess_blob_gas = a.excess_blob_gas ∧
      (gnosisHeaderOfAlloy a).parent_beacon_block_root = a.parent_beacon_block_root ∧
      (gnosisHeaderOfAlloy a).requests_hash = a.requests_hash) := by
  refine ⟨?_, ?_, ?_⟩
  · intro h
    rcases hm : h.mix_hash with _ | mh <;> rcases hn : h.nonce with _ | nn <;>
      simp [to_alloy_header, hm, hn]
  · intro h a ha
    unfold to_alloy_header at ha
    rcases hm : h.mix_hash with _ | mh
    · rw [hm] at ha
      rcases h.nonce with _ | nn <;> simp at ha
    rcases hn : h.nonce with _ | nn
    · rw [hm, hn] at ha
      simp at ha
    rw [hm, hn] at ha
    simp only [Option.some.injEq] at ha
    subst ha
    exact ⟨rfl, rfl, rfl, rfl, rfl, rfl, rfl, rfl, rfl, rfl, rfl, rfl, rfl,
      rfl, rfl, rfl, rfl, rfl, rfl, rfl, rfl⟩
  · intro a
    exact ⟨rfl, rfl, rfl, rfl, rfl, rfl, rfl, rfl, rfl, rfl, rfl, rfl, rfl,
      rfl, rfl, rfl, rfl, rfl, rfl, rfl, rfl, rfl, rfl⟩

/-- C8 (witness): field copy of the projection at the concrete header. -/
theorem claim8_alloy_conversion_witness :
    some alloyPost.mix_hash = hdrPost.mix_hash ∧
      alloyPost.parent_hash = hdrPost.parent_hash := by
  obtain ⟨h1, h2, h3, h4, h5, h6, h7, h8, h9, h10, h11, h12, h13, h14, h15,
    h16, h17, h18, h19, h20, h21⟩ :=
    claim8_alloy_conversion.2.1 hdrPost alloyPost (by rfl)
  exact ⟨h14, h1⟩

/-- C9 (counterexample): the claim that the encoded byte length moves by
exactly the `extra_data` byte delta fails: replacing the empty `extra_data`
by the single byte `[1]` leaves the encoded length unchanged, although the
byte lengths differ by one. -/
theorem claim9_extra_cex :
    wellFormed { hdrPost with extra_data := ([] : List Nat) } ∧
      wellFormed { hdrPost with extra_data := [1] } ∧
      ((encode { hdrPost with extra_data := [1] }).getD []).length =
        ((encode { hdrPost with extra_data := ([] : List Nat) }).getD []).length ∧
      ({ hdrPost with extra_data := [1] } : GnosisHeader).extra_data.length =
        ({ hdrPost with extra_data := ([] : List Nat) } : GnosisHeader).extra_data.length
          + 1 := by
  refine ⟨by decide, by decide, by decide, by decide⟩

/-- C9 (amended): when both `extra_data` values occupy 2 to 55 bytes (so the
RLP segment is the byte length plus one) and the outer prefix size does not
change, growing `extra_data` changes the total encoded length by exactly the
byte-length delta, and no other field's bytes are affected: the encodings
agree on a common prefix `A` (the twelve fields before `extra_data`) and a
common suffix `B` (consensus pair and fork fields). -/
theorem claim9_extra_amended (h : GnosisHeader) (e' : List Nat)
    (hwf : wellFormed h)
    (h1a : 2 ≤ h.extra_data.length) (h1b : h.extra_data.length ≤ 55)
    (h2a : 2 ≤ e'.length) (h2b : e'.length ≤ 55)
    (hlol : lengthOfLength (header_payload_length h) =
      lengthOfLength (header_payload_length { h with extra_data := e' })) :
    ∃ bs bs', encode h = some bs ∧ encode { h with extra_data := e' } = some bs' ∧
      bs'.length + h.extra_data.length = bs.length + e'.length ∧
      ∃ A B,
        bs = encListHeader (header_payload_length h) ++
          (A ++ (encStr h.extra_data ++ B)) ∧
        bs' = encListHeader (header_payload_length { h with extra_data := e' }) ++
          (A ++ (encStr e' ++ B)) :=
  encode_extra_sensitivity h e' hwf h1a h1b h2a h2b hlol

/-- C9 (witness): the amended sensitivity at the concrete header, growing
`extra_data` from 2 to 3 bytes. -/
theorem claim9_extra_amended_witness :
    ∃ bs bs', encode hdrPost = some bs ∧
      encode { hdrPost with extra_data := [9, 9, 9] } = some bs' ∧
      bs'.length + hdrPost.extra_data.length = bs.length + 3 ∧
      ∃ A B,
        bs = encListHeader (header_payload_length hdrPost) ++
          (A ++ (encStr hdrPost.extra_data ++ B)) ∧
        bs' = encListHeader
            (header_payload_length { hdrPost with extra_data := [9, 9, 9] }) ++
          (A ++ (encStr [9, 9, 9] ++ B)) :=
  claim9_extra_amended hdrPost [9, 9, 9] (by decide) (by decide) (by decide)
    (by decide) (by decide) (by decide)

/-- C10: every header produced by a successful decode is well-formed in the
spec's sense: exactly one consensus variant populated with the other
variant's slots empty, and the fork-extension fields form a monotonic
prefix of the fixed order. -/
theorem claim10_decoded_wellformed (buf : List Nat) (g : GnosisHeader)
    (rem : List Nat) (hd : decode buf = .ok (g, rem)) :
    ((g.mix_hash ≠ none ∧ g.nonce ≠ none ∧ g.aura_step = none ∧ g.aura_seal = none) ∨
      (g.mix_hash = none ∧ g.nonce = none ∧ g.aura_step ≠ none ∧ g.aura_seal ≠ none)) ∧
    (g.withdrawals_root ≠ none → g.base_fee_per_gas ≠ none) ∧
    (g.blob_gas_used ≠ none → g.withdrawals_root ≠ none) ∧
    (g.excess_blob_gas ≠ none → g.blob_gas_used ≠ none) ∧
    (g.parent_beacon_block_root ≠ none → g.excess_blob_gas ≠ none) ∧
    (g.requests_hash ≠ none → g.parent_beacon_block_root ≠ none) :=
  (decode_ok_inversion buf g rem hd).2

/-- C10 (witness): the decoded concrete header is variant-exclusive and
fork-monotonic. -/
theorem claim10_decoded_wellformed_witness :
    ((hdrPost.mix_hash ≠ none ∧ hdrPost.nonce ≠ none ∧ hdrPost.aura_step = none ∧
        hdrPost.aura_seal = none) ∨
      (hdrPost.mix_hash = none ∧ hdrPost.nonce = none ∧ hdrPost.aura_step ≠ none ∧
        hdrPost.aura_seal ≠ none)) ∧
    (hdrPost.withdrawals_root ≠ none → hdrPost.base_fee_per_gas ≠ none) ∧
    (hdrPost.blob_gas_used ≠ none → hdrPost.withdrawals_root ≠ none) ∧
    (hdrPost.excess_blob_gas ≠ none → hdrPost.blob_gas_used ≠ none) ∧
    (hdrPost.parent_beacon_block_root ≠ none → hdrPost.excess_blob_gas ≠ none) ∧
    (hdrPost.requests_hash ≠ none → hdrPost.parent_beacon_block_root ≠ none) :=
  claim10_decoded_wellformed ((encode hdrPost).getD []) hdrPost [] (by rfl)

end GnosisStuff
